import Mathlib

/-
  Verification of the HydraDX math library (stableswap, omnipool, LBP, EMA)
  against its natural-language specification.

  The Rust sources are shallowly embedded: u128 / U256 / U512 arithmetic is
  modelled as Nat with explicit checked bounds, fallible code returns
  Option / Except, and a Rust panic (out-of-bounds indexing, failed assert,
  unwrap of None) is a distinct outcome of the RRes / MRes result types.
-/

namespace HydraDX

/-- 2^128, the bound of the u128 Balance type. -/
def M128 : Nat := 2 ^ 128

/-- 2^256, the bound of the U256 wide-integer type. -/
def M256 : Nat := 2 ^ 256

/-- Checked addition below a modulus (Rust checked_add). -/
def checked_add (m a b : Nat) : Option Nat := if a + b < m then some (a + b) else none

/-- Checked multiplication below a modulus (Rust checked_mul). -/
def checked_mul (m a b : Nat) : Option Nat := if a * b < m then some (a * b) else none

/-- Checked subtraction (Rust checked_sub: fails on underflow). -/
def checked_sub (a b : Nat) : Option Nat := if b ≤ a then some (a - b) else none

/-- Checked division (Rust checked_div: fails only on a zero divisor). -/
def checked_div (a b : Nat) : Option Nat := if b = 0 then none else some (a / b)

/-- Balance::try_from on a wide integer: succeeds iff the value fits in u128. -/
def try_from128 (a : Nat) : Option Nat := if a < M128 then some a else none

/-- Permill::mul_floor: floor(p * x / 10^6). -/
def mul_floor (p x : Nat) : Nat := p * x / 1000000

/-- A Rust result that distinguishes a panic from a checked failure (None). -/
inductive RRes (α : Type) where
  | panic : RRes α
  | fail : RRes α
  | ok : α → RRes α
deriving DecidableEq

namespace Stableswap

/-- abs_diff from stableswap/math.rs. -/
def abs_diff (d0 d1 : Nat) : Nat := if d0 ≤ d1 then d1 - d0 else d0 - d1

/-- has_converged from stableswap/math.rs:
    (v1 <= v0 && diff < precision) || (v1 > v0 && diff <= precision). -/
def has_converged (v0 v1 precision : Nat) : Bool :=
  (v1 ≤ v0 && abs_diff v0 v1 < precision) || (v0 < v1 && abs_diff v0 v1 ≤ precision)

/-- calculate_ann: fold of checked u128 multiplications, amplification * len^len. -/
def calculate_ann (len amp : Nat) : Option Nat :=
  (List.range len).foldlM (fun acc _ => checked_mul M128 acc len) amp

/-- Insert into an ascending list (helper for the sort used by the solver). -/
def insertSorted (x : Nat) : List Nat → List Nat
  | [] => [x]
  | y :: ys => if x ≤ y then x :: y :: ys else y :: insertSorted x ys

/-- Ascending sort of the reserve vector (Vec::sort on U256 values). -/
def sortAsc (l : List Nat) : List Nat := l.foldr insertSorted []

/-- One Newton iteration of the D solver (the body of the for-loop in
    calculate_d, without the convergence check). -/
def d_step (xs : List Nat) (ann s n : Nat) (d : Nat) : Option Nat := do
  let d_p ← xs.foldlM (fun acc v => do
      let t ← checked_mul M256 acc d
      let u ← checked_mul M256 v n
      checked_div t u) d
  let t1 ← checked_mul M256 ann s
  let t2 ← checked_mul M256 d_p n
  let t3 ← checked_add M256 t1 t2
  let t4 ← checked_mul M256 t3 d
  let b1 ← checked_sub ann 1
  let b2 ← checked_mul M256 b1 d
  let n1 ← checked_add M256 n 1
  let b3 ← checked_mul M256 n1 d_p
  let b4 ← checked_add M256 b2 b3
  let q ← checked_div t4 b4
  checked_add M256 q 2

/-- The iteration loop of calculate_d, with the early return on convergence.
    Both exits hand the U256 iterate to the caller, which downcasts it. -/
def calculate_d_loop (xs : List Nat) (ann s n precision : Nat) : Nat → Nat → Option Nat
  | 0, d => some d
  | fuel + 1, d =>
    match d_step xs ann s n d with
    | none => none
    | some d2 =>
      if has_converged d d2 precision then some d2
      else calculate_d_loop xs ann s n precision fuel d2

/-- The setup common to calculate_d and its iterate sequence: the sorted
    nonzero reserves, ann, and the checked sum of the reserves. -/
def d_setup (xp : List Nat) (amp : Nat) : Option (List Nat × Nat × Nat) := do
  let xs := sortAsc (xp.filter (fun v => v ≠ 0))
  let ann ← calculate_ann xs.length amp
  let s ← xs.foldlM (fun acc v => checked_add M256 acc v) 0
  some (xs, ann, s)

/-- calculate_d from stableswap/math.rs. The const-generic iteration cap N is
    the fuel parameter. -/
def calculate_d (xp : List Nat) (amp precision fuel : Nat) : Option Nat :=
  match d_setup xp amp with
  | none => none
  | some (xs, ann, s) =>
    if s = 0 then some 0
    else
      match calculate_d_loop xs ann s xs.length precision fuel s with
      | none => none
      | some d => try_from128 d

/-- The raw Newton iterate sequence of calculate_d (no convergence exits):
    iterate the step function a given number of times from a start value. -/
def d_iter_from (xs : List Nat) (ann s n : Nat) : Nat → Nat → Option Nat
  | 0, d => some d
  | k + 1, d =>
    match d_step xs ann s n d with
    | none => none
    | some d2 => d_iter_from xs ann s n k d2

/-- The k-th Newton iterate of calculate_d on the given reserves. -/
def d_iterates (xp : List Nat) (amp : Nat) (k : Nat) : Option Nat :=
  match d_setup xp amp with
  | none => none
  | some (xs, ann, s) => d_iter_from xs ann s xs.length k s

/-- One Newton iteration of the Y solver (body of the loop in calculate_y). -/
def y_step (c b d : Nat) (y : Nat) : Option Nat := do
  let t ← checked_mul M256 y y
  let t2 ← checked_add M256 t c
  let u ← checked_mul M256 2 y
  let u2 ← checked_add M256 u b
  let u3 ← checked_sub u2 d
  let q ← checked_div t2 u3
  checked_add M256 q 2

/-- The iteration loop of calculate_y with its convergence early-exit. -/
def calculate_y_loop (c b d precision : Nat) : Nat → Nat → Option Nat
  | 0, y => some y
  | fuel + 1, y =>
    match y_step c b d y with
    | none => none
    | some y2 =>
      if has_converged y y2 precision then some y2
      else calculate_y_loop c b d precision fuel y2

/-- The setup of calculate_y: computes the constants c and b of the iteration. -/
def y_setup (xp : List Nat) (d amp : Nat) : Option (Nat × Nat) := do
  let xs := sortAsc (xp.filter (fun v => v ≠ 0))
  let ann ← calculate_ann (xs.length + 1) amp
  let n := xs.length + 1
  let s ← xs.foldlM (fun acc v => checked_add M256 acc v) 0
  let c1 ← xs.foldlM (fun c r => do
      let t ← checked_mul M256 c d
      let u ← checked_mul M256 r n
      checked_div t u) d
  let t ← checked_mul M256 c1 d
  let u ← checked_mul M256 ann n
  let c ← checked_div t u
  let q ← checked_div d ann
  let b ← checked_add M256 s q
  some (c, b)

/-- calculate_y from stableswap/math.rs. The const-generic cap N is the fuel. -/
def calculate_y (xp : List Nat) (d amp precision fuel : Nat) : Option Nat :=
  match y_setup xp d amp with
  | none => none
  | some (c, b) =>
    match calculate_y_loop c b d precision fuel d with
    | none => none
    | some y => try_from128 y

/-- The raw Newton iterate sequence of calculate_y. -/
def y_iter_from (c b d : Nat) : Nat → Nat → Option Nat
  | 0, y => some y
  | k + 1, y =>
    match y_step c b d y with
    | none => none
    | some y2 => y_iter_from c b d k y2

/-- The k-th Newton iterate of calculate_y on the given inputs. -/
def y_iterates (xp : List Nat) (d amp : Nat) (k : Nat) : Option Nat :=
  match y_setup xp d amp with
  | none => none
  | some (c, b) => y_iter_from c b d k d

/-- calculate_shares from stableswap/math.rs. -/
def calculate_shares (initial updated : List Nat) (amp precision issuance fuel : Nat) :
    Option Nat := do
  let d0 ← calculate_d initial amp precision fuel
  let dU ← calculate_d updated amp precision fuel
  let d1 ← checked_sub dU 2
  if d1 < d0 then none
  else if issuance = 0 then some d1
  else do
    let t ← checked_mul M256 issuance (d1 - d0)
    let q ← checked_div t d0
    try_from128 q

/-- The filter over enumerate that drops the element at the given index
    (keeps everything when the index is past the end). -/
def filter_out_index : List Nat → Nat → List Nat
  | [], _ => []
  | _ :: xs, 0 => xs
  | x :: xs, j + 1 => x :: filter_out_index xs j

/-- The per-asset loop of calculate_withdraw_one_asset: accumulates the
    fee-reduced non-withdrawn reserves and the reduced withdrawn reserve. -/
def withdraw_loop (d1 d0 y fee asset_index : Nat) :
    List Nat → Nat → List Nat × Nat → Option (List Nat × Nat)
  | [], _, acc => some acc
  | r :: rest, idx, (rr, ar) => do
    let dx ←
      if idx = asset_index then do
        let t ← checked_mul M256 r d1
        let u ← checked_div t d0
        checked_sub u y
      else do
        let t ← checked_mul M256 r d1
        let u ← checked_div t d0
        checked_sub r u
    let expected ← try_from128 dx
    let rb ← try_from128 r
    let reduced ← checked_sub rb (mul_floor fee expected)
    if idx = asset_index then withdraw_loop d1 d0 y fee asset_index rest (idx + 1) (rr, reduced)
    else withdraw_loop d1 d0 y fee asset_index rest (idx + 1) (rr ++ [reduced], ar)

/-- calculate_withdraw_one_asset from stableswap/math.rs. The final
    reserves[asset_index] access is a raw index: out of bounds it panics. -/
def calculate_withdraw_one_asset (reserves : List Nat)
    (shares asset_index issuance amp precision fee fuelD fuelY : Nat) :
    RRes (Nat × Nat) :=
  if issuance = 0 then .fail
  else if reserves.length < asset_index then .fail
  else
    match (do
      let d0 ← calculate_d reserves amp precision fuelD
      let t ← checked_mul M256 shares d0
      let q ← checked_div t issuance
      let d1 ← checked_sub d0 q
      let xp := filter_out_index reserves asset_index
      let d1b ← try_from128 d1
      let y ← calculate_y xp d1b amp precision fuelY
      let st ← withdraw_loop d1 d0 y fee asset_index reserves 0 ([], 0)
      let y1 ← calculate_y st.1 d1b amp precision fuelY
      let dy ← checked_sub st.2 y1
      some (y, dy) : Option (Nat × Nat)) with
    | none => .fail
    | some (y, dy) =>
      match reserves.get? asset_index with
      | none => .panic
      | some rj =>
        match checked_sub rj y with
        | none => .fail
        | some dy0 =>
          match checked_sub dy0 dy with
          | none => .fail
          | some f => .ok (dy, f)

end Stableswap

namespace Omnipool

/-- Modelled from the spec: BalanceUpdate is the tagged variant
    Increase(Balance) | Decrease(Balance) (omnipool/types.rs is not in src). -/
inductive BalanceUpdate where
  | Increase : Nat → BalanceUpdate
  | Decrease : Nat → BalanceUpdate
deriving DecidableEq

/-- Modelled from the spec: AssetReserveState with reserve, hub_reserve,
    shares and protocol_shares (omnipool/types.rs is not in src). -/
structure AssetReserveState where
  reserve : Nat
  hub_reserve : Nat
  shares : Nat
  protocol_shares : Nat
deriving DecidableEq

/-- Modelled from the spec: AssetStateChange, a bundle of BalanceUpdates;
    Default fills unused deltas with Increase(0). -/
structure AssetStateChange where
  delta_reserve : BalanceUpdate := .Increase 0
  delta_hub_reserve : BalanceUpdate := .Increase 0
  delta_shares : BalanceUpdate := .Increase 0
  delta_protocol_shares : BalanceUpdate := .Increase 0
deriving DecidableEq

/-- Modelled from the spec: TradeStateChange, the return record of the
    sell and buy trade calculations. -/
structure TradeStateChange where
  asset_in : AssetStateChange
  asset_out : AssetStateChange
  delta_imbalance : BalanceUpdate
  hdx_hub_amount : Nat
deriving DecidableEq

/-- amount_without_fee from omnipool/math.rs:
    Permill::from_percent(100).checked_sub(fee)?.mul_floor(amount). -/
def amount_without_fee (amount fee : Nat) : Option Nat :=
  (checked_sub 1000000 fee).map (fun f => mul_floor f amount)

/-- calculate_sell_state_changes from omnipool/math.rs. -/
def calculate_sell_state_changes (asset_in_state asset_out_state : AssetReserveState)
    (amount asset_fee protocol_fee imbalance : Nat) : Option TradeStateChange := do
  let t ← checked_mul M256 amount asset_in_state.hub_reserve
  let u ← checked_add M256 asset_in_state.reserve amount
  let q ← checked_div t u
  let delta_hub_reserve_in ← try_from128 q
  let protocol_fee_amount := mul_floor protocol_fee delta_hub_reserve_in
  let delta_hub_reserve_out ← checked_sub delta_hub_reserve_in protocol_fee_amount
  let t2 ← checked_mul M256 asset_out_state.reserve delta_hub_reserve_out
  let u2 ← checked_add M256 asset_out_state.hub_reserve delta_hub_reserve_out
  let q2 ← checked_div t2 u2
  let dro ← try_from128 q2
  let delta_reserve_out ← amount_without_fee dro asset_fee
  let delta_imbalance := min protocol_fee_amount imbalance
  let hdx_fee_amount ← checked_sub protocol_fee_amount delta_imbalance
  some {
    asset_in := { delta_reserve := .Increase amount,
                  delta_hub_reserve := .Decrease delta_hub_reserve_in }
    asset_out := { delta_reserve := .Decrease delta_reserve_out,
                   delta_hub_reserve := .Increase delta_hub_reserve_out }
    delta_imbalance := .Decrease delta_imbalance
    hdx_hub_amount := hdx_fee_amount }

/-- FixedU128::from_inner(x).checked_div(FixedU128::from(Permill(parts))),
    read back with into_inner: floor(x * 10^18 / (parts * 10^12)), failing on a
    zero divisor or a quotient that does not fit u128 (sp_arithmetic floor
    division of fixed-point values). -/
def fixed_div_permill_inner (x parts : Nat) : Option Nat :=
  if parts = 0 then none else try_from128 (x * 10 ^ 18 / (parts * 10 ^ 12))

/-- calculate_buy_state_changes from omnipool/math.rs. -/
def calculate_buy_state_changes (asset_in_state asset_out_state : AssetReserveState)
    (amount asset_fee protocol_fee imbalance : Nat) : Option TradeStateChange := do
  let reserve_no_fee ← amount_without_fee asset_out_state.reserve asset_fee
  let t ← checked_mul M256 asset_out_state.hub_reserve amount
  let u ← checked_sub reserve_no_fee amount
  let q ← checked_div t u
  let q1 ← try_from128 q
  let delta_hub_reserve_out ← checked_add M128 q1 1
  let delta_hub_reserve_in ←
    fixed_div_permill_inner delta_hub_reserve_out (1000000 - protocol_fee)
  if asset_in_state.hub_reserve ≤ delta_hub_reserve_in then none
  else do
    let t2 ← checked_mul M256 asset_in_state.reserve delta_hub_reserve_in
    let u2 ← checked_sub asset_in_state.hub_reserve delta_hub_reserve_in
    let q2 ← checked_div t2 u2
    let q3 ← try_from128 q2
    let delta_reserve_in ← checked_add M128 q3 1
    let protocol_fee_amount := mul_floor protocol_fee delta_hub_reserve_in
    let delta_imbalance := min protocol_fee_amount imbalance
    let hdx_fee_amount ← checked_sub protocol_fee_amount delta_imbalance
    some {
      asset_in := { delta_reserve := .Increase delta_reserve_in,
                    delta_hub_reserve := .Decrease delta_hub_reserve_in }
      asset_out := { delta_reserve := .Decrease amount,
                     delta_hub_reserve := .Increase delta_hub_reserve_out }
      delta_imbalance := .Decrease delta_imbalance
      hdx_hub_amount := hdx_fee_amount }

end Omnipool

namespace Ema

/-- 2^512 - 1: the saturation bound of U512. -/
def SAT512 : Nat := 2 ^ 512 - 1

/-- Saturating U512 multiplication. -/
def smul512 (a b : Nat) : Nat := min (a * b) SAT512

/-- Saturating U512 addition. -/
def sadd512 (a b : Nat) : Nat := min (a + b) SAT512

/-- Saturating u128 addition. -/
def sadd128 (a b : Nat) : Nat := min (a + b) (M128 - 1)

/-- Fuel-bounded bit length; agrees with U256/U512 bits() for n < 2^fuel. -/
def bitsAux : Nat → Nat → Nat
  | 0, _ => 0
  | f + 1, n => if n = 0 then 0 else bitsAux f (n / 2) + 1

/-- Bit length of a wide integer (position of the highest set bit plus one,
    0 for 0); every value in this development is far below 2^600. -/
def bits (n : Nat) : Nat := bitsAux 600 n

/-- Modelled from the spec: the Fraction scaling divisor DIV, the power of two
    given as the interface constant in the spec (fraction.rs is not in src). -/
def DIV : Nat := 2 ^ 64

/-- Modelled from the spec: Fraction * Balance, exact multiply-then-divide by
    DIV rounding toward zero (fraction.rs is not in src). -/
def multiply_by_balance (f b : Nat) : Nat := f * b / DIV

/-- A Rational128: an unreduced pair of u128 numerator and denominator. -/
structure Rat128 where
  n : Nat
  d : Nat
deriving DecidableEq

/-- The Ord instance of sp_arithmetic Rational128: equal denominators compare
    numerators, a zero denominator is treated as infinity, otherwise compare by
    cross-multiplication in a wider type. -/
def ratCmp (x y : Rat128) : Ordering :=
  if x.d = y.d then compare x.n y.n
  else if x.d = 0 then .gt
  else if y.d = 0 then .lt
  else compare (x.n * y.d) (y.n * x.d)

/-- Value comparison of two rationals by cross-multiplication (the semantic
    order used by the spec for prices, assuming positive denominators). -/
def ratValLe (x y : Rat128) : Prop := x.n * y.d ≤ y.n * x.d

/-- Value equality of two rationals by cross-multiplication. -/
def ratValEq (x y : Rat128) : Prop := x.n * y.d = y.n * x.d

/-- saturating_sub on rationals from ema/math.rs: returns l - r as a (U256,
    U256) pair, saturating at zero, with shortcuts when either numerator is 0. -/
def satSub (l r : Rat128) : Nat × Nat :=
  if l.n = 0 ∨ r.n = 0 then (l.n, l.d)
  else (l.n * r.d - r.n * l.d, l.d * r.d)

/-- multiply from ema/math.rs: a Fraction times a (U256, U256) rational,
    returned as a (U512, U512) pair via full multiplication. -/
def multiply (f : Nat) (r : Nat × Nat) : Nat × Nat :=
  if f = 0 ∨ r.1 = 0 then (0, 1)
  else if f = DIV then r
  else (r.1 * f, r.2 * DIV)

/-- The Rounding enum of ema/math.rs. -/
inductive Rounding where
  | nearest : Rounding
  | down : Rounding
  | up : Rounding
deriving DecidableEq

/-- Rounding::to_bias from ema/math.rs. -/
def Rounding.to_bias : Rounding → Nat → Nat × Nat
  | .nearest, _ => (0, 0)
  | .down, m => (0, m)
  | .up, m => (m, 0)

/-- round from ema/math.rs: reduce a 512-bit rational to at most 383 bits by
    right shift, applying the rounding bias with U512 saturation. -/
def roundStep (p : Nat × Nat) (rnd : Rounding) : Nat × Nat :=
  let shift := max (bits p.1) (bits p.2) - 383
  if 0 < shift then
    let min_n := if p.1 = 0 then 0 else 1
    let bias := rnd.to_bias 1
    (max (min (p.1 / 2 ^ shift + bias.1) SAT512) min_n,
     max (min (p.2 / 2 ^ shift + bias.2) SAT512) 1)
  else p

/-- round_to_rational from ema/math.rs: reduce a 512-bit rational to a 128-bit
    Rational128 by right shift, applying the rounding bias with u128
    saturation. -/
def round_to_rational (p : Nat × Nat) (rnd : Rounding) : Rat128 :=
  let shift := max (bits p.1) (bits p.2) - 128
  if 0 < shift then
    let min_n := if p.1 = 0 then 0 else 1
    let bias := rnd.to_bias 1
    ⟨max (sadd128 (p.1 / 2 ^ shift % M128) bias.1) min_n,
     max (sadd128 (p.2 / 2 ^ shift % M128) bias.2) 1⟩
  else ⟨p.1 % M128, p.2 % M128⟩

/-- The (numerator, denominator) pair built by rounding_add before the final
    128-bit rounding (the main path of the function). -/
def combineAdd (l : Rat128) (r : Nat × Nat) (rnd : Rounding) : Nat × Nat :=
  let r2 := roundStep r rnd
  (sadd512 (smul512 l.n r2.2) (smul512 r2.1 l.d), smul512 l.d r2.2)

/-- rounding_add from ema/math.rs. -/
def rounding_add (l : Rat128) (r : Nat × Nat) (rnd : Rounding) : Rat128 :=
  if l.n = 0 then round_to_rational r .nearest
  else if r.1 = 0 then l
  else round_to_rational (combineAdd l r rnd) rnd

/-- The (numerator, denominator) pair built by rounding_sub before the final
    128-bit rounding (the main path of the function). -/
def combineSub (l : Rat128) (r : Nat × Nat) (rnd : Rounding) : Nat × Nat :=
  let r2 := roundStep r rnd
  (smul512 l.n r2.2 - smul512 r2.1 l.d, smul512 l.d r2.2)

/-- rounding_sub from ema/math.rs. -/
def rounding_sub (l : Rat128) (r : Nat × Nat) (rnd : Rounding) : Rat128 :=
  if l.n = 0 ∨ r.1 = 0 then l
  else round_to_rational (combineSub l r rnd) rnd

/-- price_weighted_average from ema/math.rs: when incoming >= prev (by the
    Rational128 order) add the rounded-down weighted delta, otherwise subtract
    the rounded-up weighted delta. -/
def price_weighted_average (prev incoming : Rat128) (weight : Nat) : Rat128 :=
  if ratCmp incoming prev ≠ .lt then
    rounding_add prev (multiply weight (satSub incoming prev)) .down
  else
    rounding_sub prev (multiply weight (satSub prev incoming)) .up

/-- balance_weighted_average from ema/math.rs; the debug_assert weight <= 1
    is the contract precondition under which the bare + and - cannot wrap. -/
def balance_weighted_average (prev incoming weight : Nat) : Nat :=
  if prev ≤ incoming then prev + multiply_by_balance weight (incoming - prev)
  else prev - multiply_by_balance weight (prev - incoming)

/-- The regularity condition of the final 128-bit rounding on the add path:
    either no shift happens, or the shifted numerator stays positive and the
    incremented shifted denominator does not saturate u128. -/
def downRegular (prev incoming : Rat128) (weight : Nat) : Prop :=
  let p := combineAdd prev (multiply weight (satSub incoming prev)) .down
  let s := max (bits p.1) (bits p.2) - 128
  0 < s → 2 ^ s ≤ p.1 ∧ p.2 / 2 ^ s + 1 < M128

/-- The regularity condition of the final 128-bit rounding on the subtract
    path: either no shift happens, or the shifted denominator stays positive
    and the incremented shifted numerator does not saturate u128. -/
def upRegular (prev incoming : Rat128) (weight : Nat) : Prop :=
  let p := combineSub prev (multiply weight (satSub prev incoming)) .up
  let s := max (bits p.1) (bits p.2) - 128
  0 < s → 2 ^ s ≤ p.2 ∧ p.1 / 2 ^ s + 1 < M128

instance (prev incoming : Rat128) (weight : Nat) :
    Decidable (downRegular prev incoming weight) := by
  unfold downRegular; infer_instance

instance (prev incoming : Rat128) (weight : Nat) :
    Decidable (upRegular prev incoming weight) := by
  unfold upRegular; infer_instance

instance (x y : Rat128) : Decidable (ratValLe x y) := by
  unfold ratValLe; infer_instance

instance (x y : Rat128) : Decidable (ratValEq x y) := by
  unfold ratValEq; infer_instance

end Ema

/-- The error taxonomy of lib.rs. -/
inductive MathError where
  | Overflow : MathError
  | InsufficientOutReserve : MathError
  | ZeroWeight : MathError
  | ZeroReserve : MathError
  | ZeroDuration : MathError
deriving DecidableEq

/-- A Rust result distinguishing a panic from a MathError return. -/
inductive MRes (α : Type) where
  | panic : MRes α
  | err : MathError → MRes α
  | ok : α → MRes α
deriving DecidableEq

/-- ok_or: lift a checked Option into MRes with the given error. -/
def liftE {α : Type} (o : Option α) (e : MathError) : MRes α :=
  match o with
  | none => .err e
  | some a => .ok a

/-- unwrap: lift a checked Option into MRes, panicking on None. -/
def liftP {α : Type} (o : Option α) : MRes α :=
  match o with
  | none => .panic
  | some a => .ok a

def MRes.bind {α β : Type} : MRes α → (α → MRes β) → MRes β
  | .panic, _ => .panic
  | .err e, _ => .err e
  | .ok a, f => f a

instance : Monad MRes where
  pure := MRes.ok
  bind := MRes.bind

namespace Lbp

/-- HYDRA_ONE: the Balance units of one whole token. -/
def HYDRA_ONE : Nat := 10 ^ 12

/-- Modelled from the spec: FixedBalance (types.rs is not in src) is a signed
    binary fixed-point number with 64 fractional bits; the carrier is the
    underlying integer representation, valid in [-2^127, 2^127). -/
structure FB where
  val : Int
deriving DecidableEq

/-- The FixedBalance scaling factor 2^64. -/
def FB_ONE : Int := 2 ^ 64

/-- The exclusive upper bound of the FixedBalance representation. -/
def FB_MAX : Int := 2 ^ 127

/-- Range check of a FixedBalance representation. -/
def fbCheck (v : Int) : Option FB :=
  if -FB_MAX ≤ v ∧ v < FB_MAX then some ⟨v⟩ else none

/-- FixedBalance checked addition. -/
def FB.checked_add (a b : FB) : Option FB := fbCheck (a.val + b.val)

/-- FixedBalance checked subtraction. -/
def FB.checked_sub (a b : FB) : Option FB := fbCheck (a.val - b.val)

/-- FixedBalance checked multiplication (truncating toward zero). -/
def FB.checked_mul (a b : FB) : Option FB := fbCheck ((a.val * b.val).tdiv FB_ONE)

/-- FixedBalance checked division (truncating toward zero). -/
def FB.checked_div (a b : FB) : Option FB :=
  if b.val = 0 then none else fbCheck ((a.val * FB_ONE).tdiv b.val)

/-- convert_to_fixed from lbp/lbp.rs: split the balance into whole tokens and
    a remainder; from_num panics when the whole part exceeds the FixedBalance
    integer range. -/
def convert_to_fixed (value : Nat) : MRes FB :=
  if value = 1 then .ok ⟨FB_ONE⟩
  else
    let f := value / HYDRA_ONE
    let r := value - f * HYDRA_ONE
    if f < 2 ^ 63 then .ok ⟨(f : Int) * FB_ONE + (r : Int) * FB_ONE / HYDRA_ONE⟩
    else .panic

/-- convert_from_fixed from lbp/lbp.rs: whole part times HYDRA_ONE plus the
    scaled fractional part; to_num on a negative value panics. -/
def convert_from_fixed (v : FB) : MRes Nat :=
  if v.val < 0 then .panic
  else
    let w := v.val.toNat / 2 ^ 64
    let frac := v.val.toNat % 2 ^ 64
    let frac2 := frac * HYDRA_ONE / 2 ^ 64
    match checked_mul M128 w HYDRA_ONE with
    | none => .err .Overflow
    | some t =>
      match checked_add M128 t frac2 with
      | none => .err .Overflow
      | some r => .ok r

/-- round_up_fixed from lbp/lbp.rs: add the constant 1e-11 (at 64 fractional
    bits) with a checked add. -/
def round_up_fixed (v : FB) : MRes FB :=
  liftE (FB.checked_add v ⟨184467440⟩) .Overflow

/-- The checked-multiplication iteration of the modelled pow. -/
def powLoop (b : FB) : Nat → FB → Option FB
  | 0, acc => some acc
  | n + 1, acc =>
    match FB.checked_mul acc b with
    | none => none
    | some acc2 => powLoop b n acc2

/-- Modelled from the spec: transcendental::pow (transcendental.rs is not in
    src) computes base^exponent, failing outside the convergence domain
    (non-positive base); only the success/error split and the fact that a
    base >= 1 yields a result >= 1 are relied on by the claims, so the
    exponent is truncated to its integer part here. -/
def pow (b e : FB) : Except Unit FB :=
  if b.val ≤ 0 then .error ()
  else
    match powLoop b (e.val.tdiv FB_ONE).toNat ⟨FB_ONE⟩ with
    | some r => .ok r
    | none => .error ()

/-- calculate_spot_price from lbp/lbp.rs. -/
def calculate_spot_price (in_reserve out_reserve in_weight out_weight amount : Nat) :
    Except MathError Nat :=
  if in_reserve = 0 then .error .ZeroReserve
  else if amount = 0 ∨ out_reserve = 0 then .ok 0
  else
    match checked_mul M256 amount out_reserve with
    | none => .error .Overflow
    | some t =>
      match checked_mul M256 t in_weight with
      | none => .error .Overflow
      | some t2 =>
        match checked_mul M256 in_reserve out_weight with
        | none => .error .Overflow
        | some u =>
          match checked_div t2 u with
          | none => .error .Overflow
          | some q =>
            match try_from128 q with
            | none => .error .Overflow
            | some r => .ok r

/-- calculate_out_given_in from lbp/lbp.rs, with its ensure cascade (note the
    last ensure reports ZeroWeight for a zero in_reserve), the assert, and the
    unwraps as panic outcomes. -/
def calculate_out_given_in (in_reserve out_reserve in_weight out_weight amount : Nat) :
    MRes Nat :=
  if out_weight = 0 then .err .ZeroWeight
  else if in_weight = 0 then .err .ZeroWeight
  else if out_reserve = 0 then .err .ZeroReserve
  else if in_reserve = 0 then .err .ZeroWeight
  else do
    let iw ← convert_to_fixed in_weight
    let ow ← convert_to_fixed out_weight
    let am ← convert_to_fixed amount
    let ir ← convert_to_fixed in_reserve
    let orr ← convert_to_fixed out_reserve
    let weight_ratio ← liftE (FB.checked_div iw ow) .Overflow
    let new_in_reserve ← liftE (FB.checked_add ir am) .Overflow
    let ir0 ← liftE (FB.checked_div ir new_in_reserve) .Overflow
    let ir1 ← round_up_fixed ir0
    let t1 ← liftE (FB.checked_add am ir) .Overflow
    let chk ← liftP (FB.checked_mul ir1 t1)
    if chk.val < ir.val then .panic
    else do
      let ir2 ← match pow ir1 weight_ratio with
        | .error _ => .err .Overflow
        | .ok v => .ok v
      let nor ← liftE (FB.checked_mul orr ir2) .Overflow
      let norc ← round_up_fixed nor
      let r ← match fbCheck (orr.val - norc.val) with
        | none => .panic
        | some r => .ok r
      let nor2 ← liftP (FB.checked_sub orr r)
      let _ ← liftE (FB.checked_sub orr nor2) .Overflow
      let _ ← liftE (FB.checked_sub orr norc) .Overflow
      convert_from_fixed r

/-- calculate_in_given_out from lbp/lbp.rs: no zero checks at all; every
    checked failure surfaces as Overflow. -/
def calculate_in_given_out (in_reserve out_reserve in_weight out_weight amount : Nat) :
    MRes Nat := do
  let iw ← convert_to_fixed in_weight
  let ow ← convert_to_fixed out_weight
  let am ← convert_to_fixed amount
  let ir ← convert_to_fixed in_reserve
  let orr ← convert_to_fixed out_reserve
  let weight_ratio ← liftE (FB.checked_div ow iw) .Overflow
  let diff ← liftE (FB.checked_sub orr am) .Overflow
  let y ← liftE (FB.checked_div orr diff) .Overflow
  let y1 ← match pow y weight_ratio with
    | .error _ => .err .Overflow
    | .ok v => .ok v
  let y2 ← liftE (FB.checked_sub y1 ⟨FB_ONE⟩) .Overflow
  let r ← liftE (FB.checked_mul ir y2) .Overflow
  convert_from_fixed r

/-- calculate_linear_weights from lbp/lbp.rs (BlockNumber instantiated at
    Nat; the try_into conversions check the u32 and u128 bounds). -/
def calculate_linear_weights (start_x end_x start_y end_y at_ : Nat) :
    Except MathError Nat :=
  match checked_sub end_x at_ with
  | none => .error .Overflow
  | some d1 =>
    match checked_sub at_ start_x with
    | none => .error .Overflow
    | some d2 =>
      match checked_sub end_x start_x with
      | none => .error .Overflow
      | some dx =>
        if dx < 2 ^ 32 then
          if d1 < M128 then
            if d2 < M128 then
              if dx = 0 then .error .ZeroDuration
              else
                match checked_mul M256 start_y d1 with
                | none => .error .Overflow
                | some left =>
                  match checked_mul M256 end_y d2 with
                  | none => .error .Overflow
                  | some right =>
                    match checked_add M256 left right with
                    | none => .error .Overflow
                    | some s =>
                      match checked_div s dx with
                      | none => .error .Overflow
                      | some q =>
                        if q < 2 ^ 32 then .ok q else .error .Overflow
            else .error .Overflow
          else .error .Overflow
        else .error .Overflow

end Lbp

/-! Characterizations of the checked arithmetic helpers. -/

theorem checked_add_eq_some {m a b c : Nat} :
    checked_add m a b = some c ↔ a + b < m ∧ c = a + b := by
  unfold checked_add
  split <;> simp_all <;> omega

theorem checked_mul_eq_some {m a b c : Nat} :
    checked_mul m a b = some c ↔ a * b < m ∧ c = a * b := by
  unfold checked_mul
  split <;> simp_all <;> omega

theorem checked_sub_eq_some {a b c : Nat} :
    checked_sub a b = some c ↔ b ≤ a ∧ c = a - b := by
  unfold checked_sub
  split <;> simp_all <;> omega

theorem checked_div_eq_some {a b c : Nat} :
    checked_div a b = some c ↔ b ≠ 0 ∧ c = a / b := by
  unfold checked_div
  split <;> simp_all
  exact eq_comm

theorem try_from128_eq_some {a c : Nat} :
    try_from128 a = some c ↔ a < M128 ∧ c = a := by
  unfold try_from128
  split <;> simp_all <;> omega

namespace Stableswap

/-! Lemmas about the Y solver: any successful Newton step ends in +2, so with
    at least one iteration the returned iterate is at least 2. -/

theorem y_step_ge_two {c b d y y2 : Nat} (h : y_step c b d y = some y2) : 2 ≤ y2 := by
  simp only [y_step, bind, Option.bind_eq_some] at h
  obtain ⟨t, -, t2, -, u, -, u2, -, u3, -, q, -, hq⟩ := h
  rw [checked_add_eq_some] at hq
  omega

theorem calculate_y_loop_ge_two (c b d p : Nat) :
    ∀ fuel y y2, calculate_y_loop c b d p (fuel + 1) y = some y2 → 2 ≤ y2 := by
  intro fuel
  induction fuel with
  | zero =>
    intro y y2 h
    unfold calculate_y_loop at h
    cases hs : y_step c b d y with
    | none => rw [hs] at h; exact absurd h (by simp)
    | some z =>
      rw [hs] at h
      by_cases hc : has_converged y z p = true
      · simp [hc] at h
        exact h ▸ y_step_ge_two hs
      · simp [hc] at h
        unfold calculate_y_loop at h
        exact (Option.some_inj.mp h) ▸ y_step_ge_two hs
  | succ g ih =>
    intro y y2 h
    unfold calculate_y_loop at h
    cases hs : y_step c b d y with
    | none => rw [hs] at h; exact absurd h (by simp)
    | some z =>
      rw [hs] at h
      by_cases hc : has_converged y z p = true
      · simp [hc] at h
        exact h ▸ y_step_ge_two hs
      · simp [hc] at h
        exact ih z y2 h

theorem calculate_y_ge_two {xp : List Nat} {d amp p fuel y : Nat} (hf : 1 ≤ fuel)
    (h : calculate_y xp d amp p fuel = some y) : 2 ≤ y := by
  unfold calculate_y at h
  split at h
  · exact absurd h (by simp)
  · rename_i cb c b heq
    split at h
    · exact absurd h (by simp)
    · rename_i v hl
      rw [try_from128_eq_some] at h
      obtain ⟨g, rfl⟩ := Nat.exists_eq_add_of_le hf
      exact h.2 ▸ calculate_y_loop_ge_two c b d p g d v (by rw [Nat.add_comm] at hl; exact hl)

/-- The withdraw loop never touches the withdrawn-asset accumulator when no
    visited index equals asset_index. -/
theorem withdraw_loop_ar (d1 d0 y fee j : Nat) :
    ∀ (l : List Nat) (idx : Nat) (rr : List Nat) (ar : Nat) (res : List Nat × Nat),
      (∀ k, k < l.length → idx + k ≠ j) →
      withdraw_loop d1 d0 y fee j l idx (rr, ar) = some res → res.2 = ar := by
  intro l
  induction l with
  | nil =>
    intro idx rr ar res _ h
    unfold withdraw_loop at h
    simp at h
    rw [← h]
  | cons r rest ih =>
    intro idx rr ar res hk h
    have hne : ¬ idx = j := by
      have := hk 0 (by simp)
      omega
    unfold withdraw_loop at h
    simp only [if_neg hne, bind, Option.bind_eq_some] at h
    obtain ⟨t, -, u, -, dx, -, expected, -, rb, -, reduced, -, hrec⟩ := h
    exact ih (idx + 1) (rr ++ [reduced]) ar res
      (fun k hklt => by have := hk (k + 1) (by simp; omega); omega) hrec

end Stableswap

namespace Stableswap

/-- A successful calculate_d always yields a value below 2^128. -/
theorem calculate_d_lt {xp : List Nat} {amp p fuel d : Nat}
    (h : calculate_d xp amp p fuel = some d) : d < M128 := by
  unfold calculate_d at h
  split at h
  · exact absurd h (by simp)
  · split at h
    · have : d = 0 := by simpa using h.symm
      subst this
      exact Nat.pos_pow_of_pos 128 (by norm_num)
    · split at h
      · exact absurd h (by simp)
      · rw [try_from128_eq_some] at h
        omega

/-- Running the D iteration one more step from a successful first step. -/
theorem d_iter_from_succ {xs : List Nat} {ann s n d d2 : Nat} (k : Nat)
    (hstep : d_step xs ann s n d = some d2) :
    d_iter_from xs ann s n (k + 1) d = d_iter_from xs ann s n k d2 := by
  have he : d_iter_from xs ann s n (k + 1) d =
      (match d_step xs ann s n d with
       | none => none
       | some d2 => d_iter_from xs ann s n k d2) := rfl
  rw [he, hstep]

/-- If every step of the raw D iterate sequence succeeds and no consecutive
    pair converges, the loop of calculate_d runs to the cap and returns the
    last iterate. -/
theorem d_loop_of_no_conv (xs : List Nat) (ann s n p : Nat) :
    ∀ fuel d dN, d_iter_from xs ann s n fuel d = some dN →
      (∀ k, k < fuel → ∀ dk dk1, d_iter_from xs ann s n k d = some dk →
        d_iter_from xs ann s n (k + 1) d = some dk1 →
        has_converged dk dk1 p = false) →
      calculate_d_loop xs ann s n p fuel d = some dN := by
  intro fuel
  induction fuel with
  | zero =>
    intro d dN h _
    exact h
  | succ f ih =>
    intro d dN h hnc
    unfold d_iter_from at h
    cases hstep : d_step xs ann s n d with
    | none => rw [hstep] at h; exact absurd h (by simp)
    | some d2 =>
      rw [hstep] at h
      dsimp only at h
      have hc0 : has_converged d d2 p = false := by
        refine hnc 0 (by omega) d d2 rfl ?_
        rw [d_iter_from_succ 0 hstep]
        rfl
      have he : calculate_d_loop xs ann s n p (f + 1) d =
          (match d_step xs ann s n d with
           | none => none
           | some d2 =>
             if has_converged d d2 p = true then some d2
             else calculate_d_loop xs ann s n p f d2) := rfl
      rw [he, hstep]
      simp only [hc0, Bool.false_eq_true, if_false]
      refine ih d2 dN h ?_
      intro k hk dk dk1 h1 h2
      exact hnc (k + 1) (by omega) dk dk1
        ((d_iter_from_succ k hstep) ▸ h1) ((d_iter_from_succ (k + 1) hstep) ▸ h2)

/-- Running the Y iteration one more step from a successful first step. -/
theorem y_iter_from_succ {c b d y y2 : Nat} (k : Nat)
    (hstep : y_step c b d y = some y2) :
    y_iter_from c b d (k + 1) y = y_iter_from c b d k y2 := by
  have he : y_iter_from c b d (k + 1) y =
      (match y_step c b d y with
       | none => none
       | some y2 => y_iter_from c b d k y2) := rfl
  rw [he, hstep]

/-- The Y analogue of d_loop_of_no_conv. -/
theorem y_loop_of_no_conv (c b d p : Nat) :
    ∀ fuel y yN, y_iter_from c b d fuel y = some yN →
      (∀ k, k < fuel → ∀ yk yk1, y_iter_from c b d k y = some yk →
        y_iter_from c b d (k + 1) y = some yk1 →
        has_converged yk yk1 p = false) →
      calculate_y_loop c b d p fuel y = some yN := by
  intro fuel
  induction fuel with
  | zero =>
    intro y yN h _
    exact h
  | succ f ih =>
    intro y yN h hnc
    unfold y_iter_from at h
    cases hstep : y_step c b d y with
    | none => rw [hstep] at h; exact absurd h (by simp)
    | some y2 =>
      rw [hstep] at h
      dsimp only at h
      have hc0 : has_converged y y2 p = false := by
        refine hnc 0 (by omega) y y2 rfl ?_
        rw [y_iter_from_succ 0 hstep]
        rfl
      have he : calculate_y_loop c b d p (f + 1) y =
          (match y_step c b d y with
           | none => none
           | some y2 =>
             if has_converged y y2 p = true then some y2
             else calculate_y_loop c b d p f y2) := rfl
      rw [he, hstep]
      simp only [hc0, Bool.false_eq_true, if_false]
      refine ih y2 yN h ?_
      intro k hk yk yk1 h1 h2
      exact hnc (k + 1) (by omega) yk yk1
        ((y_iter_from_succ k hstep) ▸ h1) ((y_iter_from_succ (k + 1) hstep) ▸ h2)

end Stableswap

/-! Arithmetic helpers shared by the claim proofs. -/

theorem mul_lt_M256 {a b : Nat} (ha : a < M128) (hb : b < M128) : a * b < M256 := by
  calc a * b < M128 * M128 := Nat.mul_lt_mul_of_lt_of_lt ha hb
    _ = M256 := by norm_num [M128, M256]

theorem add_lt_M256 {a b : Nat} (ha : a < M128) (hb : b < M128) : a + b < M256 := by
  have h : M128 + M128 ≤ M256 := by norm_num [M128, M256]
  omega

/-- x * y / z <= y when x <= z > 0. -/
theorem mul_div_le_right {x y z : Nat} (hx : x ≤ z) (hz : 0 < z) : x * y / z ≤ y := by
  calc x * y / z ≤ z * y / z := Nat.div_le_div_right (Nat.mul_le_mul_right y hx)
    _ = y := Nat.mul_div_cancel_left y hz

/-- x * y / z <= x when y <= z > 0. -/
theorem mul_div_le_left {x y z : Nat} (hy : y ≤ z) (hz : 0 < z) : x * y / z ≤ x := by
  rw [Nat.mul_comm]
  exact mul_div_le_right hy hz

theorem mul_floor_le {p x : Nat} (hp : p ≤ 1000000) : mul_floor p x ≤ x :=
  mul_div_le_right hp (by norm_num)

/-! Claim C1. -/

/-- C1 counterexample: the claim says calculate_withdraw_one_asset fails by
    returning None, without panicking, also at the one-past-the-end index
    asset_index = reserves.len(); but with zero Y-solver iterations the call
    with reserves [5, 7], shares 1, asset_index 2, issuance 1 reaches the raw
    reserves[asset_index] access and panics. -/
theorem claim_C1_counterexample :
    Stableswap.calculate_withdraw_one_asset [5, 7] 1 2 1 1 1 0 0 0 = RRes.panic := by
  decide

/-- C1 (amended): provided the Y-solver iteration cap is at least 1 (as its
    documentation requires), calculate_withdraw_one_asset returns None without
    panicking whenever share_asset_issuance = 0 or the asset index is out of
    range, including asset_index = reserves.len(). -/
theorem claim_C1_amended (reserves : List Nat)
    (shares asset_index issuance amp precision fee fuelD fuelY : Nat)
    (hY : 1 ≤ fuelY) (h : issuance = 0 ∨ reserves.length ≤ asset_index) :
    Stableswap.calculate_withdraw_one_asset reserves shares asset_index issuance
      amp precision fee fuelD fuelY = RRes.fail := by
  unfold Stableswap.calculate_withdraw_one_asset
  by_cases h0 : issuance = 0
  · simp [h0]
  · have hlen : reserves.length ≤ asset_index := by tauto
    by_cases hlt : reserves.length < asset_index
    · rw [if_neg h0, if_pos hlt]
    · have heq : reserves.length = asset_index := by omega
      rw [if_neg h0, if_neg hlt]
      split
      · rfl
      · rename_i p y dy hchain
        exfalso
        simp only [bind, Option.bind_eq_some] at hchain
        obtain ⟨d0, -, t, -, q, -, d1, -, d1b, -, yy, -, st, hst, y1, hy1, dyv, hdyv, -⟩ :=
          hchain
        have har : st.2 = 0 :=
          Stableswap.withdraw_loop_ar d1 d0 yy fee asset_index reserves 0 [] 0 st
            (fun k hk => by omega) hst
        have hy1two := Stableswap.calculate_y_ge_two hY hy1
        rw [checked_sub_eq_some] at hdyv
        omega

/-- C1 witness: at reserves [5, 7], one Y iteration, asset_index = len = 2,
    the function returns the checked failure None (no panic). -/
theorem claim_C1_witness :
    Stableswap.calculate_withdraw_one_asset [5, 7] 1 2 1 1 1 0 1 1 = RRes.fail :=
  claim_C1_amended [5, 7] 1 2 1 1 1 0 1 1 (by decide) (by decide)

/-! Claim C5. -/

/-- C5: when both D values are defined, calculate_shares computes
    D0 = D(initial) and D1 = D(updated) - 2, fails when D1 < D0 (including
    D(updated) < 2), returns D1 itself for zero issuance, and otherwise the
    flooring division issuance * (D1 - D0) / D0 (failing on a zero D0 or on a
    quotient that does not fit the Balance type). -/
theorem claim_C5 (initial updated : List Nat) (amp precision issuance fuel : Nat)
    (hiss : issuance < M128) (d0 dU : Nat)
    (h0 : Stableswap.calculate_d initial amp precision fuel = some d0)
    (h1 : Stableswap.calculate_d updated amp precision fuel = some dU) :
    Stableswap.calculate_shares initial updated amp precision issuance fuel =
      if dU < d0 + 2 then none
      else if issuance = 0 then some (dU - 2)
      else if d0 = 0 then none
      else if issuance * (dU - 2 - d0) / d0 < M128 then
        some (issuance * (dU - 2 - d0) / d0)
      else none := by
  have hd0 : d0 < M128 := Stableswap.calculate_d_lt h0
  have hdU : dU < M128 := Stableswap.calculate_d_lt h1
  unfold Stableswap.calculate_shares
  rw [h0, h1]
  simp only [Option.some_bind, Option.bind_eq_bind]
  by_cases hlt : dU < 2
  · have : checked_sub dU 2 = none := by
      unfold checked_sub
      rw [if_neg (by omega)]
    rw [this, if_pos (by omega)]
    rfl
  · have : checked_sub dU 2 = some (dU - 2) := by
      unfold checked_sub
      rw [if_pos (by omega)]
    rw [this]
    simp only [Option.some_bind, Option.bind_eq_bind]
    by_cases hcmp : dU - 2 < d0
    · rw [if_pos hcmp, if_pos (show dU < d0 + 2 by omega)]
    · rw [if_neg hcmp, if_neg (show ¬(dU < d0 + 2) by omega)]
      by_cases hz : issuance = 0
      · rw [if_pos hz, if_pos hz]
      · rw [if_neg hz, if_neg hz]
        have hmul : checked_mul M256 issuance (dU - 2 - d0) = some (issuance * (dU - 2 - d0)) := by
          rw [checked_mul_eq_some]
          refine ⟨?_, rfl⟩
          calc issuance * (dU - 2 - d0) < M128 * M128 := by
                apply Nat.mul_lt_mul_of_lt_of_lt hiss
                omega
            _ = M256 := by norm_num [M128, M256]
        rw [hmul]
        simp only [Option.some_bind, Option.bind_eq_bind]
        by_cases hd0z : d0 = 0
        · rw [if_pos hd0z]
          unfold checked_div
          rw [if_pos hd0z]
          rfl
        · rw [if_neg hd0z]
          unfold checked_div
          rw [if_neg hd0z]
          simp only [Option.some_bind, Option.bind_eq_bind]
          unfold try_from128
          split
          · rfl
          · rfl

/-- C5 witness: reserves [4, 4] and [8, 8] with amplification 1 give
    D0 = 10 and D(updated) = 18, so 5 issued shares yield 5 * 6 / 10 = 3. -/
theorem claim_C5_witness :
    Stableswap.calculate_shares [4, 4] [8, 8] 1 1 5 5 = some 3 := by
  rw [claim_C5 [4, 4] [8, 8] 1 1 5 5 (by decide) 10 18 (by decide) (by decide)]
  decide

/-! Claim C6. -/

/-- C6 counterexample: with reserves [2^127, 2^127] and zero iterations the
    cap is reached without any convergence check, the last iterate is the
    initial sum 2^128, and calculate_d returns None (the downcast to Balance
    fails) instead of a successful Some of the last iterate. -/
theorem claim_C6_counterexample :
    Stableswap.calculate_d [2 ^ 127, 2 ^ 127] 1 1 0 = none ∧
    Stableswap.d_iterates [2 ^ 127, 2 ^ 127] 1 0 = some (2 ^ 128) := by
  constructor
  · decide
  · decide

/-- C6 (amended): the Newton iterations declare convergence exactly when the
    previous iterate v0 and new iterate v1 satisfy |v1 - v0| < precision if
    v1 <= v0, or |v1 - v0| <= precision if v1 > v0; and when the iteration cap
    is reached without convergence, calculate_d and calculate_y return the
    last iterate downcast to Balance: Some of it when it is below 2^128, and
    None otherwise. -/
theorem claim_C6_amended :
    (∀ v0 v1 p : Nat, Stableswap.has_converged v0 v1 p = true ↔
      ((v1 ≤ v0 ∧ Nat.dist v1 v0 < p) ∨ (v0 < v1 ∧ Nat.dist v1 v0 ≤ p)))
    ∧
    (∀ (xp : List Nat) (amp precision fuel dN : Nat) (xs : List Nat) (ann s : Nat),
      Stableswap.d_setup xp amp = some (xs, ann, s) → s ≠ 0 →
      Stableswap.d_iterates xp amp fuel = some dN →
      (∀ k, k < fuel → ∀ dk dk1, Stableswap.d_iterates xp amp k = some dk →
        Stableswap.d_iterates xp amp (k + 1) = some dk1 →
        Stableswap.has_converged dk dk1 precision = false) →
      Stableswap.calculate_d xp amp precision fuel =
        if dN < M128 then some dN else none)
    ∧
    (∀ (xp : List Nat) (d amp precision fuel yN c b : Nat),
      Stableswap.y_setup xp d amp = some (c, b) →
      Stableswap.y_iterates xp d amp fuel = some yN →
      (∀ k, k < fuel → ∀ yk yk1, Stableswap.y_iterates xp d amp k = some yk →
        Stableswap.y_iterates xp d amp (k + 1) = some yk1 →
        Stableswap.has_converged yk yk1 precision = false) →
      Stableswap.calculate_y xp d amp precision fuel =
        if yN < M128 then some yN else none) := by
  refine ⟨?_, ?_, ?_⟩
  · intro v0 v1 p
    simp only [Stableswap.has_converged, Stableswap.abs_diff, Nat.dist,
      Bool.or_eq_true, Bool.and_eq_true, decide_eq_true_eq]
    split_ifs with h
    · omega
    · omega
  · intro xp amp precision fuel dN xs ann s hsetup hs hiter hnc
    unfold Stableswap.d_iterates at hiter hnc
    rw [hsetup] at hiter hnc
    dsimp only at hiter hnc
    unfold Stableswap.calculate_d
    rw [hsetup]
    dsimp only
    rw [if_neg hs]
    rw [Stableswap.d_loop_of_no_conv xs ann s xs.length precision fuel s dN hiter hnc]
    unfold try_from128
    rfl
  · intro xp d amp precision fuel yN c b hsetup hiter hnc
    unfold Stableswap.y_iterates at hiter hnc
    rw [hsetup] at hiter hnc
    dsimp only at hiter hnc
    unfold Stableswap.calculate_y
    rw [hsetup]
    dsimp only
    rw [Stableswap.y_loop_of_no_conv c b d precision fuel d yN hiter hnc]
    unfold try_from128
    rfl

/-- C6 witness: on reserves [4] with amplification 1, precision 0 and one
    iteration, neither solver converges (the step changes the iterate by more
    than 0) and both return the last iterate: D = 6 and Y = 3. -/
theorem claim_C6_witness :
    Stableswap.calculate_d [4] 1 0 1 = some 6 ∧
    Stableswap.calculate_y [4] 4 1 0 1 = some 3 := by
  constructor
  · rw [claim_C6_amended.2.1 [4] 1 0 1 6 [4] 1 4 (by decide) (by decide) (by decide)
      (by
        intro k hk dk dk1 h1 h2
        interval_cases k
        have e1 : Stableswap.d_iterates [4] 1 0 = some 4 := by decide
        have e2 : Stableswap.d_iterates [4] 1 1 = some 6 := by decide
        rw [e1] at h1
        rw [e2] at h2
        obtain rfl : dk = 4 := (Option.some_inj.mp h1).symm
        obtain rfl : dk1 = 6 := (Option.some_inj.mp h2).symm
        decide)]
    decide
  · rw [claim_C6_amended.2.2 [4] 4 1 0 1 3 1 5 (by decide) (by decide)
      (by
        intro k hk yk yk1 h1 h2
        interval_cases k
        have e1 : Stableswap.y_iterates [4] 4 1 0 = some 4 := by decide
        have e2 : Stableswap.y_iterates [4] 4 1 1 = some 3 := by decide
        rw [e1] at h1
        rw [e2] at h2
        obtain rfl : yk = 4 := (Option.some_inj.mp h1).symm
        obtain rfl : yk1 = 3 := (Option.some_inj.mp h2).symm
        decide)]
    decide

/-! Claim C4. -/

/-- C4: calculate_sell_state_changes returns delta_hub_reserve_in =
    floor(amount * Q_in / (R_in + amount)), protocol_fee_amount =
    floor(protocol_fee * delta_hub_reserve_in), delta_hub_reserve_out =
    delta_hub_reserve_in - protocol_fee_amount, delta_imbalance =
    Decrease(min(protocol_fee_amount, imbalance)) and hdx_hub_amount =
    protocol_fee_amount - min(protocol_fee_amount, imbalance); and on
    R_in=1000, Q_in=500, R_out=2000, Q_out=1000, amount=100 with zero fees it
    yields delta_hub_reserve_in = 45 and delta_reserve_out = 86. -/
theorem claim_C4 :
    (∀ (sIn sOut : Omnipool.AssetReserveState) (amount asset_fee protocol_fee imbalance : Nat),
      sIn.reserve < M128 → sIn.hub_reserve < M128 →
      sOut.reserve < M128 → sOut.hub_reserve < M128 →
      amount < M128 → asset_fee ≤ 1000000 → protocol_fee ≤ 1000000 →
      0 < sIn.reserve + amount → 0 < sOut.hub_reserve →
      Omnipool.calculate_sell_state_changes sIn sOut amount asset_fee protocol_fee
          imbalance =
        some { asset_in :=
                 { delta_reserve := .Increase amount,
                   delta_hub_reserve :=
                     .Decrease (amount * sIn.hub_reserve / (sIn.reserve + amount)) }
               asset_out :=
                 { delta_reserve :=
                     .Decrease (mul_floor (1000000 - asset_fee)
                       (sOut.reserve *
                          (amount * sIn.hub_reserve / (sIn.reserve + amount) -
                           mul_floor protocol_fee
                             (amount * sIn.hub_reserve / (sIn.reserve + amount))) /
                        (sOut.hub_reserve +
                          (amount * sIn.hub_reserve / (sIn.reserve + amount) -
                           mul_floor protocol_fee
                             (amount * sIn.hub_reserve / (sIn.reserve + amount)))))),
                   delta_hub_reserve :=
                     .Increase (amount * sIn.hub_reserve / (sIn.reserve + amount) -
                       mul_floor protocol_fee
                         (amount * sIn.hub_reserve / (sIn.reserve + amount))) }
               delta_imbalance :=
                 .Decrease (min (mul_floor protocol_fee
                     (amount * sIn.hub_reserve / (sIn.reserve + amount))) imbalance)
               hdx_hub_amount :=
                 mul_floor protocol_fee
                     (amount * sIn.hub_reserve / (sIn.reserve + amount)) -
                   min (mul_floor protocol_fee
                       (amount * sIn.hub_reserve / (sIn.reserve + amount))) imbalance })
    ∧
    Omnipool.calculate_sell_state_changes ⟨1000, 500, 0, 0⟩ ⟨2000, 1000, 0, 0⟩ 100 0 0 0 =
      some { asset_in := { delta_reserve := .Increase 100, delta_hub_reserve := .Decrease 45 }
             asset_out := { delta_reserve := .Decrease 86, delta_hub_reserve := .Increase 45 }
             delta_imbalance := .Decrease 0
             hdx_hub_amount := 0 } := by
  constructor
  · intro sIn sOut amount af pf imb hRi hQi hRo hQo ham haf hpf hden hQo0
    set dqi := amount * sIn.hub_reserve / (sIn.reserve + amount) with hdqi_def
    set pfa := mul_floor pf dqi with hpfa_def
    set dqo := dqi - pfa with hdqo_def
    set dro := sOut.reserve * dqo / (sOut.hub_reserve + dqo) with hdro_def
    have hdqi_le : dqi ≤ sIn.hub_reserve := mul_div_le_right (by omega) hden
    have hpfa_le : pfa ≤ dqi := mul_floor_le hpf
    have hdro_le : dro ≤ sOut.reserve := mul_div_le_left (by omega) (by omega)
    have h1 : checked_mul M256 amount sIn.hub_reserve = some (amount * sIn.hub_reserve) :=
      checked_mul_eq_some.mpr ⟨mul_lt_M256 ham hQi, rfl⟩
    have h2 : checked_add M256 sIn.reserve amount = some (sIn.reserve + amount) :=
      checked_add_eq_some.mpr ⟨add_lt_M256 hRi ham, rfl⟩
    have h3 : checked_div (amount * sIn.hub_reserve) (sIn.reserve + amount) = some dqi :=
      checked_div_eq_some.mpr ⟨by omega, hdqi_def⟩
    have h4 : try_from128 dqi = some dqi := try_from128_eq_some.mpr ⟨by omega, rfl⟩
    have h5 : checked_sub dqi pfa = some dqo := checked_sub_eq_some.mpr ⟨hpfa_le, hdqo_def⟩
    have h6 : checked_mul M256 sOut.reserve dqo = some (sOut.reserve * dqo) :=
      checked_mul_eq_some.mpr ⟨mul_lt_M256 hRo (by omega), rfl⟩
    have h7 : checked_add M256 sOut.hub_reserve dqo = some (sOut.hub_reserve + dqo) :=
      checked_add_eq_some.mpr ⟨add_lt_M256 hQo (by omega), rfl⟩
    have h8 : checked_div (sOut.reserve * dqo) (sOut.hub_reserve + dqo) = some dro :=
      checked_div_eq_some.mpr ⟨by omega, hdro_def⟩
    have h9 : try_from128 dro = some dro := try_from128_eq_some.mpr ⟨by omega, rfl⟩
    have h10 : Omnipool.amount_without_fee dro af = some (mul_floor (1000000 - af) dro) := by
      unfold Omnipool.amount_without_fee
      rw [checked_sub_eq_some.mpr ⟨haf, rfl⟩]
      rfl
    have h11 : checked_sub pfa (min pfa imb) = some (pfa - min pfa imb) :=
      checked_sub_eq_some.mpr ⟨Nat.min_le_left pfa imb, rfl⟩
    unfold Omnipool.calculate_sell_state_changes
    rw [h1]
    simp only [Option.some_bind, Option.bind_eq_bind]
    rw [h2]
    simp only [Option.some_bind, Option.bind_eq_bind]
    rw [h3]
    simp only [Option.some_bind, Option.bind_eq_bind]
    rw [h4]
    simp only [Option.some_bind, Option.bind_eq_bind]
    rw [← hpfa_def, h5]
    simp only [Option.some_bind, Option.bind_eq_bind]
    rw [h6]
    simp only [Option.some_bind, Option.bind_eq_bind]
    rw [h7]
    simp only [Option.some_bind, Option.bind_eq_bind]
    rw [h8]
    simp only [Option.some_bind, Option.bind_eq_bind]
    rw [h9]
    simp only [Option.some_bind, Option.bind_eq_bind]
    rw [h10]
    simp only [Option.some_bind, Option.bind_eq_bind]
    rw [h11]
    simp only [Option.some_bind, Option.bind_eq_bind]
  · decide

/-- C4 witness: the general statement of claim_C4 applied to the concrete S5
    state R_in=1000, Q_in=500, R_out=2000, Q_out=1000, amount=100, zero fees
    and zero imbalance reproduces the record with 45 and 86. -/
theorem claim_C4_witness :
    Omnipool.calculate_sell_state_changes ⟨1000, 500, 0, 0⟩ ⟨2000, 1000, 0, 0⟩ 100 0 0 0 =
      some { asset_in := { delta_reserve := .Increase 100, delta_hub_reserve := .Decrease 45 }
             asset_out := { delta_reserve := .Decrease 86, delta_hub_reserve := .Increase 45 }
             delta_imbalance := .Decrease 0
             hdx_hub_amount := 0 } := by
  rw [claim_C4.1 ⟨1000, 500, 0, 0⟩ ⟨2000, 1000, 0, 0⟩ 100 0 0 0 (by decide) (by decide)
    (by decide) (by decide) (by decide) (by decide) (by decide) (by decide) (by decide)]
  decide

/-! Claim C3. -/

namespace Omnipool

/-- The hub-reserve delta of the out asset in a buy: the flooring division
    Q_out * amount / ((1 - asset_fee) * R_out - amount), increased by one. -/
def buy_delta_hub_reserve_out (sOut : AssetReserveState) (amount asset_fee : Nat) : Nat :=
  sOut.hub_reserve * amount / (mul_floor (1000000 - asset_fee) sOut.reserve - amount) + 1

/-- The required hub-asset input of a buy: the out-asset hub delta divided by
    (1 - protocol_fee) in FixedU128 floor arithmetic. -/
def buy_delta_hub_reserve_in (sOut : AssetReserveState) (amount asset_fee protocol_fee : Nat) :
    Nat :=
  buy_delta_hub_reserve_out sOut amount asset_fee * 10 ^ 18 /
    ((1000000 - protocol_fee) * 10 ^ 12)

end Omnipool

/-- C3: calculate_buy_state_changes computes the hub-reserve delta of the out
    asset as floor(Q_out * amount / ((1 - asset_fee) * R_out - amount)) + 1,
    computes the reserve delta of the in asset as the corresponding flooring
    division increased by one, and returns None whenever the required
    delta_hub_reserve_in is at least the hub reserve of the asset-in side. -/
theorem claim_C3 (sIn sOut : Omnipool.AssetReserveState)
    (amount asset_fee protocol_fee imbalance : Nat)
    (hRi : sIn.reserve < M128) (hQi : sIn.hub_reserve < M128)
    (hRo : sOut.reserve < M128) (hQo : sOut.hub_reserve < M128)
    (ham : amount < M128)
    (haf : asset_fee ≤ 1000000) (hpf : protocol_fee < 1000000)
    (hamt : amount < mul_floor (1000000 - asset_fee) sOut.reserve)
    (hdho : Omnipool.buy_delta_hub_reserve_out sOut amount asset_fee < M128)
    (hdhi : Omnipool.buy_delta_hub_reserve_in sOut amount asset_fee protocol_fee < M128)
    (hdri : sIn.reserve *
        Omnipool.buy_delta_hub_reserve_in sOut amount asset_fee protocol_fee /
        (sIn.hub_reserve -
          Omnipool.buy_delta_hub_reserve_in sOut amount asset_fee protocol_fee) + 1 <
        M128) :
    Omnipool.calculate_buy_state_changes sIn sOut amount asset_fee protocol_fee imbalance =
      (if sIn.hub_reserve ≤
          Omnipool.buy_delta_hub_reserve_in sOut amount asset_fee protocol_fee then none
       else
        some { asset_in :=
                 { delta_reserve :=
                     .Increase (sIn.reserve *
                       Omnipool.buy_delta_hub_reserve_in sOut amount asset_fee protocol_fee /
                       (sIn.hub_reserve -
                         Omnipool.buy_delta_hub_reserve_in sOut amount asset_fee
                           protocol_fee) + 1),
                   delta_hub_reserve :=
                     .Decrease (Omnipool.buy_delta_hub_reserve_in sOut amount asset_fee
                       protocol_fee) }
               asset_out :=
                 { delta_reserve := .Decrease amount,
                   delta_hub_reserve :=
                     .Increase (Omnipool.buy_delta_hub_reserve_out sOut amount asset_fee) }
               delta_imbalance :=
                 .Decrease (min (mul_floor protocol_fee
                     (Omnipool.buy_delta_hub_reserve_in sOut amount asset_fee protocol_fee))
                   imbalance)
               hdx_hub_amount :=
                 mul_floor protocol_fee
                     (Omnipool.buy_delta_hub_reserve_in sOut amount asset_fee protocol_fee) -
                   min (mul_floor protocol_fee
                       (Omnipool.buy_delta_hub_reserve_in sOut amount asset_fee protocol_fee))
                     imbalance }) := by
  set rnf := mul_floor (1000000 - asset_fee) sOut.reserve with hrnf_def
  set q := sOut.hub_reserve * amount / (rnf - amount) with hq_def
  have hdho_eq : Omnipool.buy_delta_hub_reserve_out sOut amount asset_fee = q + 1 := rfl
  set dho := q + 1 with hdho_def
  set dhi := Omnipool.buy_delta_hub_reserve_in sOut amount asset_fee protocol_fee
    with hdhi_def
  have hdhi_eq : dhi = dho * 10 ^ 18 / ((1000000 - protocol_fee) * 10 ^ 12) := by
    rw [hdhi_def, Omnipool.buy_delta_hub_reserve_in, hdho_eq]
  have h1 : Omnipool.amount_without_fee sOut.reserve asset_fee = some rnf := by
    unfold Omnipool.amount_without_fee
    rw [checked_sub_eq_some.mpr ⟨haf, rfl⟩]
    rfl
  have h2 : checked_mul M256 sOut.hub_reserve amount = some (sOut.hub_reserve * amount) :=
    checked_mul_eq_some.mpr ⟨mul_lt_M256 hQo ham, rfl⟩
  have h3 : checked_sub rnf amount = some (rnf - amount) :=
    checked_sub_eq_some.mpr ⟨by omega, rfl⟩
  have h4 : checked_div (sOut.hub_reserve * amount) (rnf - amount) = some q :=
    checked_div_eq_some.mpr ⟨by omega, hq_def⟩
  have h5 : try_from128 q = some q := try_from128_eq_some.mpr ⟨by rw [hdho_eq] at hdho; omega, rfl⟩
  have h6 : checked_add M128 q 1 = some dho :=
    checked_add_eq_some.mpr ⟨by rw [hdho_eq] at hdho; omega, hdho_def⟩
  have h7 : Omnipool.fixed_div_permill_inner dho (1000000 - protocol_fee) = some dhi := by
    unfold Omnipool.fixed_div_permill_inner
    rw [if_neg (by omega), hdhi_eq]
    exact try_from128_eq_some.mpr ⟨by rw [hdhi_eq] at hdhi; omega, rfl⟩
  unfold Omnipool.calculate_buy_state_changes
  rw [h1]
  simp only [Option.some_bind, Option.bind_eq_bind]
  rw [h2]
  simp only [Option.some_bind, Option.bind_eq_bind]
  rw [h3]
  simp only [Option.some_bind, Option.bind_eq_bind]
  rw [h4]
  simp only [Option.some_bind, Option.bind_eq_bind]
  rw [h5]
  simp only [Option.some_bind, Option.bind_eq_bind]
  rw [h6]
  simp only [Option.some_bind, Option.bind_eq_bind]
  rw [h7]
  simp only [Option.some_bind, Option.bind_eq_bind]
  by_cases hcmp : sIn.hub_reserve ≤ dhi
  · rw [if_pos hcmp, if_pos hcmp]
  · rw [if_neg hcmp, if_neg hcmp]
    set q2 := sIn.reserve * dhi / (sIn.hub_reserve - dhi) with hq2_def
    have h8 : checked_mul M256 sIn.reserve dhi = some (sIn.reserve * dhi) :=
      checked_mul_eq_some.mpr ⟨mul_lt_M256 hRi (by omega), rfl⟩
    have h9 : checked_sub sIn.hub_reserve dhi = some (sIn.hub_reserve - dhi) :=
      checked_sub_eq_some.mpr ⟨by omega, rfl⟩
    have h10 : checked_div (sIn.reserve * dhi) (sIn.hub_reserve - dhi) = some q2 :=
      checked_div_eq_some.mpr ⟨by omega, hq2_def⟩
    have h11 : try_from128 q2 = some q2 := try_from128_eq_some.mpr ⟨by omega, rfl⟩
    have h12 : checked_add M128 q2 1 = some (q2 + 1) :=
      checked_add_eq_some.mpr ⟨by omega, rfl⟩
    have h13 : checked_sub (mul_floor protocol_fee dhi)
        (min (mul_floor protocol_fee dhi) imbalance) =
        some (mul_floor protocol_fee dhi - min (mul_floor protocol_fee dhi) imbalance) :=
      checked_sub_eq_some.mpr ⟨Nat.min_le_left _ _, rfl⟩
    rw [h8]
    simp only [Option.some_bind, Option.bind_eq_bind]
    rw [h9]
    simp only [Option.some_bind, Option.bind_eq_bind]
    rw [h10]
    simp only [Option.some_bind, Option.bind_eq_bind]
    rw [h11]
    simp only [Option.some_bind, Option.bind_eq_bind]
    rw [h12]
    simp only [Option.some_bind, Option.bind_eq_bind]
    rw [h13]
    simp only [Option.some_bind, Option.bind_eq_bind]
    rfl

/-- C3 witness: buying 86 of the out asset from R_out=2000, Q_out=1000 against
    R_in=1000, Q_in=500 with zero fees requires delta_hub_reserve_out = 45 (44
    floored, plus one) and delta_reserve_in = 99 (98 floored, plus one). -/
theorem claim_C3_witness :
    Omnipool.calculate_buy_state_changes ⟨1000, 500, 0, 0⟩ ⟨2000, 1000, 0, 0⟩ 86 0 0 0 =
      some { asset_in := { delta_reserve := .Increase 99, delta_hub_reserve := .Decrease 45 }
             asset_out := { delta_reserve := .Decrease 86, delta_hub_reserve := .Increase 45 }
             delta_imbalance := .Decrease 0
             hdx_hub_amount := 0 } := by
  rw [claim_C3 ⟨1000, 500, 0, 0⟩ ⟨2000, 1000, 0, 0⟩ 86 0 0 0 (by decide) (by decide)
    (by decide) (by decide) (by decide) (by decide) (by decide) (by decide) (by decide)
    (by decide) (by decide)]
  decide

/-! Lemmas about the modelled FixedBalance layer, used by claim C2. -/

namespace Lbp

theorem fbCheck_eq_some {v : Int} {f : FB} :
    fbCheck v = some f ↔ (-FB_MAX ≤ v ∧ v < FB_MAX ∧ f = ⟨v⟩) := by
  unfold fbCheck
  split
  · rename_i hv
    constructor
    · intro h
      exact ⟨hv.1, hv.2, (Option.some_inj.mp h).symm⟩
    · intro h
      rw [h.2.2]
  · rename_i hv
    constructor
    · intro h
      exact absurd h (by simp)
    · intro h
      exact absurd ⟨h.1, h.2.1⟩ hv

/-- Successful conversion to FixedBalance for a balance below 2^63 whole
    tokens, and nonnegativity of the result. -/
theorem convert_to_fixed_ok {v : Nat} (h : v < 2 ^ 63 * HYDRA_ONE) :
    ∃ f : FB, convert_to_fixed v = .ok f ∧ 0 ≤ f.val := by
  unfold convert_to_fixed
  by_cases h1 : v = 1
  · refine ⟨⟨FB_ONE⟩, by rw [if_pos h1], by norm_num [FB_ONE]⟩
  · rw [if_neg h1]
    have hf : v / HYDRA_ONE < 2 ^ 63 := by
      rw [Nat.div_lt_iff_lt_mul (by norm_num [HYDRA_ONE])]
      omega
    rw [if_pos hf]
    refine ⟨_, rfl, ?_⟩
    have hone : (0 : Int) ≤ FB_ONE := by norm_num [FB_ONE]
    have t1 : (0 : Int) ≤ (v / HYDRA_ONE : Nat) * FB_ONE :=
      mul_nonneg (Int.natCast_nonneg _) hone
    have t2 : (0 : Int) ≤
        ((v - v / HYDRA_ONE * HYDRA_ONE : Nat) : Int) * FB_ONE / (HYDRA_ONE : Nat) :=
      Int.ediv_nonneg (mul_nonneg (Int.natCast_nonneg _) hone) (Int.natCast_nonneg _)
    exact add_nonneg t1 t2

/-- The value of a successful FixedBalance checked multiplication. -/
theorem FB_checked_mul_ok {a b c : FB} (h : FB.checked_mul a b = some c) :
    c.val = (a.val * b.val).tdiv FB_ONE ∧ c.val < FB_MAX := by
  unfold FB.checked_mul at h
  rw [fbCheck_eq_some] at h
  exact ⟨by rw [h.2.2], by rw [h.2.2]; exact h.2.1⟩

/-- tdiv of a nonnegative product stays at least the second factor when the
    first is at least the divisor. -/
theorem tdiv_ge_of_ge {a b k : Int} (hk : 0 < k) (ha : k ≤ a) (hb : 0 ≤ b) :
    b ≤ (a * b).tdiv k := by
  have hab : 0 ≤ a * b := mul_nonneg (le_trans (le_of_lt hk) ha) hb
  rw [Int.tdiv_eq_ediv hab (le_of_lt hk)]
  rw [Int.le_ediv_iff_mul_le hk]
  calc b * k ≤ b * a := mul_le_mul_of_nonneg_left ha hb
    _ = a * b := by ring

/-- The iteration of the modelled pow keeps the accumulator at least one
    whole unit when the base is at least one. -/
theorem powLoop_ge_one {b : FB} (hb : FB_ONE ≤ b.val) :
    ∀ (n : Nat) (acc : FB), FB_ONE ≤ acc.val →
      ∀ r, powLoop b n acc = some r → FB_ONE ≤ r.val := by
  intro n
  induction n with
  | zero =>
    intro acc hacc r h
    unfold powLoop at h
    rw [← Option.some_inj.mp h]
    exact hacc
  | succ m ih =>
    intro acc hacc r h
    unfold powLoop at h
    cases hm : FB.checked_mul acc b with
    | none => rw [hm] at h; exact absurd h (by simp)
    | some acc2 =>
      rw [hm] at h
      dsimp only at h
      refine ih acc2 ?_ r h
      rw [(FB_checked_mul_ok hm).1]
      have hone : (0 : Int) < FB_ONE := by norm_num [FB_ONE]
      calc (FB_ONE : Int) ≤ b.val := hb
        _ ≤ (acc.val * b.val).tdiv FB_ONE :=
            tdiv_ge_of_ge hone hacc (le_trans (le_of_lt hone) hb)

/-- The modelled pow on a base of at least one returns at least one. -/
theorem pow_ge_one {b e : FB} {r : FB} (hb : FB_ONE ≤ b.val)
    (h : pow b e = .ok r) : FB_ONE ≤ r.val := by
  unfold pow at h
  rw [if_neg (by norm_num [FB_ONE] at hb ⊢; omega)] at h
  cases hf : powLoop b (e.val.tdiv FB_ONE).toNat ⟨FB_ONE⟩ with
  | none => rw [hf] at h; exact absurd h (by simp)
  | some r2 =>
    rw [hf] at h
    dsimp only at h
    have hr : r2 = r := by
      cases h
      rfl
    subst hr
    exact powLoop_ge_one hb _ ⟨FB_ONE⟩ (le_refl _) r2 hf

/-- convert_from_fixed on a nonnegative value never panics: it returns the
    converted balance or Overflow. -/
theorem convert_from_fixed_no_panic {v : FB} (h : 0 ≤ v.val) :
    (∃ n, convert_from_fixed v = .ok n) ∨ convert_from_fixed v = .err .Overflow := by
  unfold convert_from_fixed
  rw [if_neg (by omega)]
  cases h1 : checked_mul M128 (v.val.toNat / 2 ^ 64) HYDRA_ONE with
  | none =>
    right
    simp only [h1]
  | some t =>
    cases h2 : checked_add M128 t (v.val.toNat % 2 ^ 64 * HYDRA_ONE / 2 ^ 64) with
    | none =>
      right
      simp only [h1, h2]
    | some r =>
      left
      exact ⟨r, by simp only [h1, h2]⟩

end Lbp

/-! Reduction lemmas for the MRes monad. -/

theorem MRes_bind_ok {α β : Type} (a : α) (f : α → MRes β) :
    (MRes.ok a >>= f) = f a := rfl

theorem MRes_bind_err {α β : Type} (e : MathError) (f : α → MRes β) :
    (MRes.err e >>= f) = MRes.err e := rfl

theorem liftE_none {α : Type} (e : MathError) : liftE (none : Option α) e = .err e := rfl

theorem liftE_some {α : Type} (a : α) (e : MathError) : liftE (some a) e = .ok a := rfl

theorem liftP_none {α : Type} : liftP (none : Option α) = .panic := rfl

theorem liftP_some {α : Type} (a : α) : liftP (some a) = .ok a := rfl

namespace Lbp

/-- The powLoop iteration keeps its accumulator below the FixedBalance bound. -/
theorem powLoop_lt_max {b : FB} :
    ∀ (n : Nat) (acc : FB), acc.val < FB_MAX →
      ∀ r, powLoop b n acc = some r → r.val < FB_MAX := by
  intro n
  induction n with
  | zero =>
    intro acc hacc r h
    unfold powLoop at h
    rw [← Option.some_inj.mp h]
    exact hacc
  | succ m ih =>
    intro acc hacc r h
    unfold powLoop at h
    cases hm : FB.checked_mul acc b with
    | none => rw [hm] at h; exact absurd h (by simp)
    | some acc2 =>
      rw [hm] at h
      dsimp only at h
      exact ih acc2 (FB_checked_mul_ok hm).2 r h

/-- The modelled pow keeps its result below the FixedBalance bound. -/
theorem pow_lt_max {b e r : FB} (h : pow b e = .ok r) : r.val < FB_MAX := by
  unfold pow at h
  split at h
  · exact absurd h (by simp)
  · cases hf : powLoop b (e.val.tdiv FB_ONE).toNat ⟨FB_ONE⟩ with
    | none => rw [hf] at h; exact absurd h (by simp)
    | some r2 =>
      rw [hf] at h
      dsimp only at h
      have hr : r2 = r := by
        cases h
        rfl
      subst hr
      exact powLoop_lt_max _ ⟨FB_ONE⟩ (by norm_num [FB_ONE, FB_MAX]) r2 hf

end Lbp

/-! Claim C2. -/

/-- C2 counterexample: the claim says every LBP routine rejects a zero
    reserve with the error ZeroReserve, but calculate_out_given_in with a
    zero in_reserve (and everything else nonzero) answers ZeroWeight. -/
theorem claim_C2_counterexample :
    Lbp.calculate_out_given_in 0 1 1 1 1 = MRes.err MathError.ZeroWeight ∧
    Lbp.calculate_out_given_in 0 1 1 1 1 ≠ MRes.err MathError.ZeroReserve := by
  constructor
  · rfl
  · decide

/-- C2 (amended): calculate_out_given_in rejects a zero out_weight or a zero
    in_weight with ZeroWeight, a zero out_reserve with ZeroReserve, and a zero
    in_reserve with ZeroWeight (not ZeroReserve); calculate_spot_price rejects
    only a zero in_reserve, with ZeroReserve; calculate_in_given_out performs
    no zero checks at all and, on inputs small enough for the fixed-point
    conversion, reports every failure as Overflow. -/
theorem claim_C2_amended :
    (∀ ir orr iw ow a : Nat, ow = 0 →
      Lbp.calculate_out_given_in ir orr iw ow a = .err .ZeroWeight)
    ∧
    (∀ ir orr iw ow a : Nat, ow ≠ 0 → iw = 0 →
      Lbp.calculate_out_given_in ir orr iw ow a = .err .ZeroWeight)
    ∧
    (∀ ir orr iw ow a : Nat, ow ≠ 0 → iw ≠ 0 → orr = 0 →
      Lbp.calculate_out_given_in ir orr iw ow a = .err .ZeroReserve)
    ∧
    (∀ ir orr iw ow a : Nat, ow ≠ 0 → iw ≠ 0 → orr ≠ 0 → ir = 0 →
      Lbp.calculate_out_given_in ir orr iw ow a = .err .ZeroWeight)
    ∧
    (∀ orr iw ow a : Nat, Lbp.calculate_spot_price 0 orr iw ow a = .error .ZeroReserve)
    ∧
    (∀ ir orr iw ow a : Nat,
      ir < 2 ^ 63 * Lbp.HYDRA_ONE → orr < 2 ^ 63 * Lbp.HYDRA_ONE →
      iw < 2 ^ 63 * Lbp.HYDRA_ONE → ow < 2 ^ 63 * Lbp.HYDRA_ONE →
      a < 2 ^ 63 * Lbp.HYDRA_ONE →
      (∃ v, Lbp.calculate_in_given_out ir orr iw ow a = .ok v) ∨
        Lbp.calculate_in_given_out ir orr iw ow a = .err .Overflow) := by
  refine ⟨?_, ?_, ?_, ?_, ?_, ?_⟩
  · intro ir orr iw ow a h
    unfold Lbp.calculate_out_given_in
    rw [if_pos h]
  · intro ir orr iw ow a h1 h2
    unfold Lbp.calculate_out_given_in
    rw [if_neg h1, if_pos h2]
  · intro ir orr iw ow a h1 h2 h3
    unfold Lbp.calculate_out_given_in
    rw [if_neg h1, if_neg h2, if_pos h3]
  · intro ir orr iw ow a h1 h2 h3 h4
    unfold Lbp.calculate_out_given_in
    rw [if_neg h1, if_neg h2, if_neg h3, if_pos h4]
  · intro orr iw ow a
    rfl
  · intro ir orr iw ow a hir horr hiw how ha
    obtain ⟨fiw, hiw, hiw0⟩ := Lbp.convert_to_fixed_ok hiw
    obtain ⟨fow, how, how0⟩ := Lbp.convert_to_fixed_ok how
    obtain ⟨fam, ham, ham0⟩ := Lbp.convert_to_fixed_ok ha
    obtain ⟨fir, hfir, hir0⟩ := Lbp.convert_to_fixed_ok hir
    obtain ⟨forr, horr, horr0⟩ := Lbp.convert_to_fixed_ok horr
    unfold Lbp.calculate_in_given_out
    rw [hiw, how, ham, hfir, horr]
    simp only [MRes_bind_ok]
    cases hwr : Lbp.FB.checked_div fow fiw with
    | none => rw [liftE_none]; exact Or.inr rfl
    | some wr =>
      rw [liftE_some]
      simp only [MRes_bind_ok]
      cases hdiff : Lbp.FB.checked_sub forr fam with
      | none => rw [liftE_none]; exact Or.inr rfl
      | some diff =>
        rw [liftE_some]
        simp only [MRes_bind_ok]
        have hdiffv : diff.val = forr.val - fam.val := by
          unfold Lbp.FB.checked_sub at hdiff
          rw [Lbp.fbCheck_eq_some] at hdiff
          rw [hdiff.2.2]
        cases hy : Lbp.FB.checked_div forr diff with
        | none => rw [liftE_none]; exact Or.inr rfl
        | some y =>
          rw [liftE_some]
          simp only [MRes_bind_ok]
          have hdz : diff.val ≠ 0 := by
            unfold Lbp.FB.checked_div at hy
            by_contra hc
            rw [if_pos hc] at hy
            exact absurd hy (by simp)
          have hyv : y.val = (forr.val * Lbp.FB_ONE).tdiv diff.val := by
            unfold Lbp.FB.checked_div at hy
            rw [if_neg hdz, Lbp.fbCheck_eq_some] at hy
            rw [hy.2.2]
          rcases lt_trichotomy diff.val 0 with hneg | hzero | hpos
          · have hy0 : y.val ≤ 0 := by
              rw [hyv]
              have h1 : (forr.val * Lbp.FB_ONE).tdiv diff.val =
                  -((forr.val * Lbp.FB_ONE).tdiv (-diff.val)) := by
                rw [← Int.tdiv_neg]
                norm_num
              rw [h1]
              have h2 : 0 ≤ (forr.val * Lbp.FB_ONE).tdiv (-diff.val) :=
                Int.tdiv_nonneg (mul_nonneg horr0 (by norm_num [Lbp.FB_ONE])) (by omega)
              omega
            have hpow : Lbp.pow y wr = .error () := by
              unfold Lbp.pow
              rw [if_pos hy0]
            rw [hpow]
            dsimp only
            simp only [MRes_bind_err]
            exact Or.inr trivial
          · exact absurd hzero hdz
          · have hy1 : Lbp.FB_ONE ≤ y.val := by
              rw [hyv]
              refine Lbp.tdiv_ge_of_ge hpos ?_ (by norm_num [Lbp.FB_ONE])
              rw [hdiffv]
              omega
            cases hpow : Lbp.pow y wr with
            | error u =>
              dsimp only
              simp only [MRes_bind_err]
              exact Or.inr trivial
            | ok y1 =>
              dsimp only
              have hy1v : Lbp.FB_ONE ≤ y1.val := Lbp.pow_ge_one hy1 hpow
              cases hy2 : Lbp.FB.checked_sub y1 ⟨Lbp.FB_ONE⟩ with
              | none => rw [liftE_none]; exact Or.inr rfl
              | some y2 =>
                rw [liftE_some]
                simp only [MRes_bind_ok]
                have hy2v : 0 ≤ y2.val := by
                  unfold Lbp.FB.checked_sub at hy2
                  rw [Lbp.fbCheck_eq_some] at hy2
                  rw [hy2.2.2]
                  simp only
                  omega
                cases hr : Lbp.FB.checked_mul fir y2 with
                | none => rw [liftE_none]; exact Or.inr rfl
                | some r =>
                  rw [liftE_some]
                  simp only [MRes_bind_ok]
                  have hr0 : 0 ≤ r.val := by
                    rw [(Lbp.FB_checked_mul_ok hr).1]
                    exact Int.tdiv_nonneg (mul_nonneg hir0 hy2v)
                      (by norm_num [Lbp.FB_ONE])
                  exact Lbp.convert_from_fixed_no_panic hr0

/-- C2 witness: concrete instances of each cascade case and of the
    Ok-or-Overflow behavior of calculate_in_given_out. -/
theorem claim_C2_witness :
    Lbp.calculate_out_given_in 1 1 1 0 1 = MRes.err MathError.ZeroWeight ∧
    Lbp.calculate_out_given_in 1 1 0 2 1 = MRes.err MathError.ZeroWeight ∧
    Lbp.calculate_out_given_in 1 0 1 2 1 = MRes.err MathError.ZeroReserve ∧
    Lbp.calculate_out_given_in 0 1 1 2 1 = MRes.err MathError.ZeroWeight ∧
    Lbp.calculate_spot_price 0 1 1 1 1 = Except.error MathError.ZeroReserve ∧
    ((∃ v, Lbp.calculate_in_given_out 2 3 1 1 1 = .ok v) ∨
      Lbp.calculate_in_given_out 2 3 1 1 1 = .err .Overflow) :=
  ⟨claim_C2_amended.1 1 1 1 0 1 rfl,
   claim_C2_amended.2.1 1 1 0 2 1 (by decide) rfl,
   claim_C2_amended.2.2.1 1 0 1 2 1 (by decide) (by decide) rfl,
   claim_C2_amended.2.2.2.1 0 1 1 2 1 (by decide) (by decide) (by decide) rfl,
   claim_C2_amended.2.2.2.2.1 1 1 1 1,
   claim_C2_amended.2.2.2.2.2 2 3 1 1 1 (by norm_num [Lbp.HYDRA_ONE])
     (by norm_num [Lbp.HYDRA_ONE]) (by norm_num [Lbp.HYDRA_ONE])
     (by norm_num [Lbp.HYDRA_ONE]) (by norm_num [Lbp.HYDRA_ONE])⟩

/-! Claim C9. -/

/-- C9 counterexample: the claim says the S6 scenario start_x=0, end_x=100,
    start_y=98, end_y=2, at=25 yields weight 73, but the formula gives
    (98 * 75 + 2 * 25) / 100 = 7400 / 100 = 74. -/
theorem claim_C9_counterexample :
    Lbp.calculate_linear_weights 0 100 98 2 25 = Except.ok 74 ∧
    Lbp.calculate_linear_weights 0 100 98 2 25 ≠ Except.ok 73 := by
  constructor
  · rfl
  · intro h
    rw [show Lbp.calculate_linear_weights 0 100 98 2 25 = Except.ok 74 from rfl] at h
    simp at h

/-- C9 (amended): calculate_linear_weights returns the flooring division
    (start_y * (end_x - at) + end_y * (at - start_x)) / (end_x - start_x),
    fails with ZeroDuration when end_x = start_x (and at is in range), fails
    (with Overflow) when at lies outside [start_x, end_x]; the S6 scenario
    yields weight 74. -/
theorem claim_C9_amended :
    (∀ sx ex sy ey a : Nat, sx ≤ a → a ≤ ex → sx = ex →
      Lbp.calculate_linear_weights sx ex sy ey a = .error .ZeroDuration)
    ∧
    (∀ sx ex sy ey a : Nat, a < sx ∨ ex < a →
      Lbp.calculate_linear_weights sx ex sy ey a = .error .Overflow)
    ∧
    (∀ sx ex sy ey a : Nat, sx ≤ a → a ≤ ex → sx < ex → ex - sx < 2 ^ 32 →
      sy < 2 ^ 32 → ey < 2 ^ 32 →
      (sy * (ex - a) + ey * (a - sx)) / (ex - sx) < 2 ^ 32 →
      Lbp.calculate_linear_weights sx ex sy ey a =
        .ok ((sy * (ex - a) + ey * (a - sx)) / (ex - sx)))
    ∧
    Lbp.calculate_linear_weights 0 100 98 2 25 = .ok 74 := by
  refine ⟨?_, ?_, ?_, rfl⟩
  · intro sx ex sy ey a h1 h2 h3
    have ha : a = sx := by omega
    subst ha h3
    unfold Lbp.calculate_linear_weights
    rw [checked_sub_eq_some.mpr ⟨le_refl _, rfl⟩]
    dsimp only
    simp [Nat.sub_self, M128]
  · intro sx ex sy ey a h
    unfold Lbp.calculate_linear_weights
    rcases Nat.lt_or_ge ex a with hgt | hle
    · rw [show checked_sub ex a = none by unfold checked_sub; rw [if_neg (by omega)]]
    · have hlt : a < sx := by omega
      rw [checked_sub_eq_some.mpr ⟨hle, rfl⟩]
      dsimp only
      rw [show checked_sub a sx = none by unfold checked_sub; rw [if_neg (by omega)]]
  · intro sx ex sy ey a h1 h2 h3 h4 hsy hey h5
    unfold Lbp.calculate_linear_weights
    rw [checked_sub_eq_some.mpr ⟨h2, rfl⟩]
    dsimp only
    rw [checked_sub_eq_some.mpr ⟨h1, rfl⟩]
    dsimp only
    rw [checked_sub_eq_some.mpr ⟨(by omega : sx ≤ ex), rfl⟩]
    dsimp only
    rw [if_pos h4]
    have h32 : (2 : Nat) ^ 32 < M128 := by norm_num [M128]
    rw [if_pos (by omega : ex - a < M128), if_pos (by omega : a - sx < M128),
      if_neg (by omega : ¬(ex - sx = 0))]
    have hsmall : ∀ x y : Nat, x < 2 ^ 32 → y < 2 ^ 32 → x * y < M256 := by
      intro x y hx hy
      calc x * y < 2 ^ 32 * 2 ^ 32 := Nat.mul_lt_mul_of_lt_of_lt hx hy
        _ < M256 := by norm_num [M256]
    rw [checked_mul_eq_some.mpr ⟨hsmall sy (ex - a) hsy (by omega), rfl⟩]
    dsimp only
    rw [checked_mul_eq_some.mpr ⟨hsmall ey (a - sx) hey (by omega), rfl⟩]
    dsimp only
    rw [checked_add_eq_some.mpr ⟨?_, rfl⟩]
    · dsimp only
      rw [checked_div_eq_some.mpr ⟨(by omega : ex - sx ≠ 0), rfl⟩]
      dsimp only
      rw [if_pos h5]
    · have e1 : sy * (ex - a) < 2 ^ 32 * 2 ^ 32 := Nat.mul_lt_mul_of_lt_of_lt hsy (by omega)
      have e2 : ey * (a - sx) < 2 ^ 32 * 2 ^ 32 := Nat.mul_lt_mul_of_lt_of_lt hey (by omega)
      have e3 : 2 ^ 32 * 2 ^ 32 + 2 ^ 32 * 2 ^ 32 < M256 := by norm_num [M256]
      omega

/-- C9 witness: the valid-path formula at the S6 inputs yields 74, and equal
    interval endpoints with at inside yield ZeroDuration. -/
theorem claim_C9_witness :
    Lbp.calculate_linear_weights 0 100 98 2 25 = Except.ok 74 ∧
    Lbp.calculate_linear_weights 5 5 7 9 5 = Except.error MathError.ZeroDuration := by
  constructor
  · have h := claim_C9_amended.2.2.1 0 100 98 2 25 (by decide) (by decide) (by decide)
      (by decide) (by decide) (by decide) (by decide)
    rw [h]
  · exact claim_C9_amended.1 5 5 7 9 5 (by decide) (by decide) rfl

/-! Claim C10. -/

/-- C10: for a nonzero in_reserve, calculate_spot_price returns Ok(0)
    whenever amount = 0 or out_reserve = 0 (no ZeroReserve or ZeroWeight error
    on this path), while a zero in_reserve always yields ZeroReserve. -/
theorem claim_C10 :
    (∀ orr iw ow a : Nat,
      Lbp.calculate_spot_price 0 orr iw ow a = .error .ZeroReserve)
    ∧
    (∀ ir orr iw ow a : Nat, ir ≠ 0 → a = 0 ∨ orr = 0 →
      Lbp.calculate_spot_price ir orr iw ow a = .ok 0) := by
  constructor
  · intro orr iw ow a
    rfl
  · intro ir orr iw ow a hir hz
    unfold Lbp.calculate_spot_price
    rw [if_neg hir, if_pos hz]

/-- C10 witness: in_reserve 3 with zero out_reserve gives Ok(0) even with zero
    weights, and zero in_reserve gives ZeroReserve. -/
theorem claim_C10_witness :
    Lbp.calculate_spot_price 3 0 0 0 7 = Except.ok 0 ∧
    Lbp.calculate_spot_price 0 5 1 1 7 = Except.error MathError.ZeroReserve := by
  constructor
  · exact claim_C10.2 3 0 0 0 7 (by decide) (by decide)
  · exact claim_C10.1 5 1 1 7

namespace Ema

theorem nat_compare_not_lt {a b : Nat} (h : compare a b ≠ Ordering.lt) : b ≤ a := by
  rcases Nat.lt_trichotomy a b with h1 | h1 | h1
  · exact absurd (by simp [compare, compareOfLessAndEq, h1]) h
  · omega
  · omega

theorem nat_compare_lt {a b : Nat} (h : compare a b = Ordering.lt) : a < b := by
  by_contra hc
  push_neg at hc
  rcases Nat.lt_or_ge b a with h1 | h1
  · simp [compare, compareOfLessAndEq, Nat.not_lt.mpr hc, Nat.ne_of_gt h1] at h
  · have h2 : a = b := le_antisymm h1 hc
    subst h2
    simp [compare, compareOfLessAndEq] at h

theorem lt_div_succ_mul {a b : Nat} (hb : 0 < b) : a < (a / b + 1) * b := by
  have h1 := Nat.div_add_mod a b
  have h2 := Nat.mod_lt a hb
  have h3 : (a / b + 1) * b = b * (a / b) + b := by ring
  omega

theorem bitsAux_lt : ∀ (f n : Nat), n < 2 ^ f → n < 2 ^ bitsAux f n := by
  intro f
  induction f with
  | zero => intro n h; simpa [bitsAux] using h
  | succ f ih =>
    intro n h
    have he : bitsAux (f + 1) n = if n = 0 then 0 else bitsAux f (n / 2) + 1 := rfl
    rw [he]
    by_cases hn : n = 0
    · subst hn; simp
    · rw [if_neg hn]
      have hdiv : n / 2 < 2 ^ f := by
        rw [pow_succ] at h
        omega
      have h2 := ih (n / 2) hdiv
      rw [pow_succ]
      omega

theorem bitsAux_le : ∀ (f n k : Nat), n < 2 ^ k → bitsAux f n ≤ k := by
  intro f
  induction f with
  | zero => intro n k _; exact Nat.zero_le k
  | succ f ih =>
    intro n k h
    have he : bitsAux (f + 1) n = if n = 0 then 0 else bitsAux f (n / 2) + 1 := rfl
    rw [he]
    by_cases hn : n = 0
    · rw [if_pos hn]; exact Nat.zero_le k
    · rw [if_neg hn]
      have hk : 1 ≤ k := by
        rcases Nat.eq_zero_or_pos k with rfl | hp
        · exact absurd (by simpa using h) hn
        · exact hp
      have h3 : 2 ^ k = 2 ^ (k - 1) * 2 := by
        rw [← pow_succ]
        congr 1
        omega
      rw [h3] at h
      have hdiv : n / 2 < 2 ^ (k - 1) := by omega
      have h4 := ih (n / 2) (k - 1) hdiv
      omega

theorem bits_lt_two_pow {n : Nat} (h : n < 2 ^ 600) : n < 2 ^ bits n :=
  bitsAux_lt 600 n h

theorem bits_le {n k : Nat} (h : n < 2 ^ k) : bits n ≤ k :=
  bitsAux_le 600 n k h

theorem div_shift_lt {n s : Nat} (hn : n < 2 ^ 600) (h : bits n ≤ s + 128) :
    n / 2 ^ s < M128 := by
  have h1 : n < 2 ^ bits n := bits_lt_two_pow hn
  have h2 : n < 2 ^ (s + 128) := lt_of_lt_of_le h1 (Nat.pow_le_pow_right (by omega) h)
  rw [pow_add] at h2
  exact Nat.div_lt_of_lt_mul h2

theorem le_SAT512 {a : Nat} (h : a < 2 ^ 449) : a ≤ SAT512 := by
  have h2 : (2 : Nat) ^ 449 ≤ SAT512 := by unfold SAT512; norm_num
  omega

theorem lt_pow_mul {a b x y : Nat} (ha : a < 2 ^ x) (hb : b < 2 ^ y) :
    a * b < 2 ^ (x + y) := by
  rw [pow_add]
  exact mul_lt_mul'' ha hb (Nat.zero_le _) (Nat.zero_le _)

theorem smul512_eq {a b : Nat} (h : a * b ≤ SAT512) : smul512 a b = a * b :=
  min_eq_left h

theorem sadd512_eq {a b : Nat} (h : a + b ≤ SAT512) : sadd512 a b = a + b :=
  min_eq_left h

theorem roundStep_id {p : Nat × Nat} (h1 : p.1 < 2 ^ 383) (h2 : p.2 < 2 ^ 383)
    (rnd : Rounding) : roundStep p rnd = p := by
  have b1 : bits p.1 ≤ 383 := bits_le h1
  have b2 : bits p.2 ≤ 383 := bits_le h2
  have hs : max (bits p.1) (bits p.2) - 383 = 0 := by omega
  simp [roundStep, hs]

theorem combineAdd_eq {l : Rat128} {r : Nat × Nat} {rnd : Rounding}
    (h1 : r.1 < 2 ^ 320) (h2 : r.2 < 2 ^ 320)
    (hl1 : l.n < M128) (hl2 : l.d < M128) :
    combineAdd l r rnd = (l.n * r.2 + r.1 * l.d, l.d * r.2) := by
  have hr : roundStep r rnd = r :=
    roundStep_id (lt_trans h1 (by norm_num)) (lt_trans h2 (by norm_num)) rnd
  have e1 : smul512 l.n r.2 = l.n * r.2 :=
    smul512_eq (le_SAT512 (lt_trans (lt_pow_mul hl1 h2) (by norm_num)))
  have e2 : smul512 r.1 l.d = r.1 * l.d :=
    smul512_eq (le_SAT512 (lt_trans (lt_pow_mul h1 hl2) (by norm_num)))
  have e3 : smul512 l.d r.2 = l.d * r.2 :=
    smul512_eq (le_SAT512 (lt_trans (lt_pow_mul hl2 h2) (by norm_num)))
  have e4 : sadd512 (l.n * r.2) (r.1 * l.d) = l.n * r.2 + r.1 * l.d := by
    apply sadd512_eq
    apply le_SAT512
    have g1 : l.n * r.2 < 2 ^ 448 := lt_pow_mul hl1 h2
    have g2 : r.1 * l.d < 2 ^ 448 := lt_pow_mul h1 hl2
    have g3 : (2 : Nat) ^ 448 + 2 ^ 448 ≤ 2 ^ 449 := by norm_num [pow_succ]
    omega
  simp only [combineAdd, hr, e1, e2, e3, e4]

theorem combineSub_eq {l : Rat128} {r : Nat × Nat} {rnd : Rounding}
    (h1 : r.1 < 2 ^ 320) (h2 : r.2 < 2 ^ 320)
    (hl1 : l.n < M128) (hl2 : l.d < M128) :
    combineSub l r rnd = (l.n * r.2 - r.1 * l.d, l.d * r.2) := by
  have hr : roundStep r rnd = r :=
    roundStep_id (lt_trans h1 (by norm_num)) (lt_trans h2 (by norm_num)) rnd
  have e1 : smul512 l.n r.2 = l.n * r.2 :=
    smul512_eq (le_SAT512 (lt_trans (lt_pow_mul hl1 h2) (by norm_num)))
  have e2 : smul512 r.1 l.d = r.1 * l.d :=
    smul512_eq (le_SAT512 (lt_trans (lt_pow_mul h1 hl2) (by norm_num)))
  have e3 : smul512 l.d r.2 = l.d * r.2 :=
    smul512_eq (le_SAT512 (lt_trans (lt_pow_mul hl2 h2) (by norm_num)))
  simp only [combineSub, hr, e1, e2, e3]


theorem exact_down {pn pd inn ind k c e : Nat} (h : pn * ind + k = inn * pd)
    (hc : c ≤ e) :
    (pn * (ind * pd * e) + k * c * pd) * ind ≤ inn * (pd * (ind * pd * e)) := by
  have h5 : k * c * pd * ind ≤ k * e * pd * ind :=
    Nat.mul_le_mul (Nat.mul_le_mul (Nat.mul_le_mul (le_refl k) hc) (le_refl pd))
      (le_refl ind)
  calc (pn * (ind * pd * e) + k * c * pd) * ind
      = pn * ind * (ind * pd * e) + k * c * pd * ind := by ring
    _ ≤ pn * ind * (ind * pd * e) + k * e * pd * ind := by omega
    _ = (pn * ind + k) * (ind * pd * e) := by ring
    _ = inn * pd * (ind * pd * e) := by rw [h]
    _ = inn * (pd * (ind * pd * e)) := by ring

theorem exact_up {pn pd inn ind k c e : Nat} (h : inn * pd + k = pn * ind)
    (hc : c ≤ e) :
    inn * (pd * (pd * ind * e)) ≤ (pn * (pd * ind * e) - k * c * pd) * ind := by
  have hB : k * c * pd ≤ pn * (pd * ind * e) := by
    have h1 : k ≤ pn * ind := by omega
    calc k * c * pd ≤ (pn * ind) * e * pd :=
          Nat.mul_le_mul (Nat.mul_le_mul h1 hc) (le_refl pd)
      _ = pn * (pd * ind * e) := by ring
  rw [Nat.sub_mul, Nat.le_sub_iff_add_le (Nat.mul_le_mul hB (le_refl ind))]
  calc inn * (pd * (pd * ind * e)) + k * c * pd * ind
      ≤ inn * (pd * (pd * ind * e)) + k * e * pd * ind := by
        have h5 : k * c * pd * ind ≤ k * e * pd * ind :=
          Nat.mul_le_mul (Nat.mul_le_mul (Nat.mul_le_mul (le_refl k) hc)
            (le_refl pd)) (le_refl ind)
        omega
    _ = (inn * pd + k) * (pd * ind * e) := by ring
    _ = pn * ind * (pd * ind * e) := by rw [h]
    _ = pn * (pd * ind * e) * ind := by ring

theorem sadd128_exact {a b : Nat} (h : a + b < M128) : sadd128 a b = a + b := by
  unfold sadd128
  unfold M128 at h ⊢
  omega

theorem round_down_shift_eq {P1 P2 : Nat}
    (hs : 0 < max (bits P1) (bits P2) - 128)
    (hP1pos : P1 ≠ 0)
    (hq1 : P1 / 2 ^ (max (bits P1) (bits P2) - 128) < M128)
    (hq1pos : 1 ≤ P1 / 2 ^ (max (bits P1) (bits P2) - 128))
    (hP2s : P2 / 2 ^ (max (bits P1) (bits P2) - 128) + 1 < M128) :
    round_to_rational (P1, P2) .down =
        ⟨P1 / 2 ^ (max (bits P1) (bits P2) - 128),
         P2 / 2 ^ (max (bits P1) (bits P2) - 128) + 1⟩ := by
  have hq2 : P2 / 2 ^ (max (bits P1) (bits P2) - 128) < M128 := by omega
  simp only [round_to_rational, Rounding.to_bias]
  rw [if_pos hs, if_neg hP1pos]
  have m1 : P1 / 2 ^ (max (bits P1) (bits P2) - 128) % M128 =
      P1 / 2 ^ (max (bits P1) (bits P2) - 128) := Nat.mod_eq_of_lt hq1
  have m2 : P2 / 2 ^ (max (bits P1) (bits P2) - 128) % M128 =
      P2 / 2 ^ (max (bits P1) (bits P2) - 128) := Nat.mod_eq_of_lt hq2
  rw [m1, m2]
  have s1 : sadd128 (P1 / 2 ^ (max (bits P1) (bits P2) - 128)) 0 =
      P1 / 2 ^ (max (bits P1) (bits P2) - 128) :=
    sadd128_exact (by omega)
  have s2 : sadd128 (P2 / 2 ^ (max (bits P1) (bits P2) - 128)) 1 =
      P2 / 2 ^ (max (bits P1) (bits P2) - 128) + 1 :=
    sadd128_exact (by omega)
  rw [s1, s2]
  congr 1
  · omega
  · omega

theorem round_up_shift_eq {P1 P2 : Nat}
    (hs : 0 < max (bits P1) (bits P2) - 128)
    (hq2 : P2 / 2 ^ (max (bits P1) (bits P2) - 128) < M128)
    (hq2pos : 1 ≤ P2 / 2 ^ (max (bits P1) (bits P2) - 128))
    (hP1s : P1 / 2 ^ (max (bits P1) (bits P2) - 128) + 1 < M128) :
    round_to_rational (P1, P2) .up =
        ⟨P1 / 2 ^ (max (bits P1) (bits P2) - 128) + 1,
         P2 / 2 ^ (max (bits P1) (bits P2) - 128)⟩ := by
  have hq1 : P1 / 2 ^ (max (bits P1) (bits P2) - 128) < M128 := by omega
  simp only [round_to_rational, Rounding.to_bias]
  rw [if_pos hs]
  have m1 : P1 / 2 ^ (max (bits P1) (bits P2) - 128) % M128 =
      P1 / 2 ^ (max (bits P1) (bits P2) - 128) := Nat.mod_eq_of_lt hq1
  have m2 : P2 / 2 ^ (max (bits P1) (bits P2) - 128) % M128 =
      P2 / 2 ^ (max (bits P1) (bits P2) - 128) := Nat.mod_eq_of_lt hq2
  rw [m1, m2]
  have s1 : sadd128 (P1 / 2 ^ (max (bits P1) (bits P2) - 128)) 1 =
      P1 / 2 ^ (max (bits P1) (bits P2) - 128) + 1 :=
    sadd128_exact (by omega)
  have s2 : sadd128 (P2 / 2 ^ (max (bits P1) (bits P2) - 128)) 0 =
      P2 / 2 ^ (max (bits P1) (bits P2) - 128) :=
    sadd128_exact (by omega)
  rw [s1, s2]
  congr 1
  · rcases (show (if P1 = 0 then 0 else 1) = 0 ∨ (if P1 = 0 then 0 else 1) = 1
      from by split <;> omega) with h | h <;> rw [h] <;> omega
  · omega

theorem round_small_eq {P1 P2 : Nat} (rnd : Rounding)
    (hs : ¬ 0 < max (bits P1) (bits P2) - 128)
    (hlt1 : P1 < M128) (hlt2 : P2 < M128) :
    round_to_rational (P1, P2) rnd = ⟨P1, P2⟩ := by
  simp only [round_to_rational]
  rw [if_neg hs]
  rw [Nat.mod_eq_of_lt hlt1, Nat.mod_eq_of_lt hlt2]

theorem bits_small_lt {P : Nat} (hP : P < 2 ^ 600) (hb : bits P ≤ 128) : P < M128 := by
  have h1 := bits_lt_two_pow hP
  have h2 : (2 : Nat) ^ bits P ≤ 2 ^ 128 := Nat.pow_le_pow_right (by omega) hb
  unfold M128
  omega

theorem shifted_le {P1 P2 inn ind t : Nat} (ht : 0 < t) (hind : 0 < ind)
    (hP1pos : P1 ≠ 0) (hex : P1 * ind ≤ inn * P2) :
    P1 / t * ind ≤ inn * (P2 / t + 1) := by
  have hinn : 0 < inn := by
    by_contra h0
    push_neg at h0
    have h0e : inn = 0 := by omega
    subst h0e
    have h1 : P1 * ind = 0 := by omega
    rcases Nat.mul_eq_zero.mp h1 with h | h
    · exact hP1pos h
    · omega
  have key1 : P1 / t * t ≤ P1 := Nat.div_mul_le_self _ _
  have key2 : P2 < (P2 / t + 1) * t := lt_div_succ_mul ht
  have h5 : P1 / t * ind * t < inn * (P2 / t + 1) * t := by
    calc P1 / t * ind * t = (P1 / t * t) * ind := by ring
      _ ≤ P1 * ind := Nat.mul_le_mul key1 (le_refl ind)
      _ ≤ inn * P2 := hex
      _ < inn * ((P2 / t + 1) * t) := mul_lt_mul_of_pos_left key2 hinn
      _ = inn * (P2 / t + 1) * t := by ring
  exact le_of_lt (Nat.lt_of_mul_lt_mul_right h5)

theorem shifted_ge {P1 P2 inn ind t : Nat} (ht : 0 < t) (hind : 0 < ind)
    (hex : inn * P2 ≤ P1 * ind) :
    inn * (P2 / t) ≤ (P1 / t + 1) * ind := by
  have key1 : P2 / t * t ≤ P2 := Nat.div_mul_le_self _ _
  have key2 : P1 < (P1 / t + 1) * t := lt_div_succ_mul ht
  have h5 : inn * (P2 / t) * t < (P1 / t + 1) * ind * t := by
    calc inn * (P2 / t) * t = inn * (P2 / t * t) := by ring
      _ ≤ inn * P2 := Nat.mul_le_mul (le_refl inn) key1
      _ ≤ P1 * ind := hex
      _ < ((P1 / t + 1) * t) * ind := Nat.mul_lt_mul_of_lt_of_le key2 (le_refl ind) hind
      _ = (P1 / t + 1) * ind * t := by ring
  exact le_of_lt (Nat.lt_of_mul_lt_mul_right h5)

theorem round_down_le {P1 P2 inn ind : Nat} (hind : 0 < ind)
    (hP1 : P1 < 2 ^ 512) (hP2 : P2 < 2 ^ 512)
    (hex : P1 * ind ≤ inn * P2)
    (hreg : 0 < max (bits P1) (bits P2) - 128 →
      2 ^ (max (bits P1) (bits P2) - 128) ≤ P1 ∧
      P2 / 2 ^ (max (bits P1) (bits P2) - 128) + 1 < M128) :
    (round_to_rational (P1, P2) .down).n * ind
      ≤ inn * (round_to_rational (P1, P2) .down).d := by
  have hm1 := le_max_left (bits P1) (bits P2)
  have hm2 := le_max_right (bits P1) (bits P2)
  have h600a : P1 < 2 ^ 600 := lt_trans hP1 (by norm_num)
  have h600b : P2 < 2 ^ 600 := lt_trans hP2 (by norm_num)
  by_cases hs : 0 < max (bits P1) (bits P2) - 128
  · obtain ⟨h2s, hP2s⟩ := hreg hs
    have hpow : 0 < 2 ^ (max (bits P1) (bits P2) - 128) :=
      Nat.pos_pow_of_pos _ (by omega)
    have hq1 : P1 / 2 ^ (max (bits P1) (bits P2) - 128) < M128 :=
      div_shift_lt h600a (by omega)
    have hP1pos : P1 ≠ 0 := by omega
    have hq1pos : 1 ≤ P1 / 2 ^ (max (bits P1) (bits P2) - 128) := by
      rw [Nat.le_div_iff_mul_le hpow]
      omega
    rw [round_down_shift_eq hs hP1pos hq1 hq1pos hP2s]
    exact shifted_le hpow hind hP1pos hex
  · rw [round_small_eq .down hs (bits_small_lt h600a (by omega))
      (bits_small_lt h600b (by omega))]
    exact hex

theorem round_up_ge {P1 P2 inn ind : Nat} (hind : 0 < ind)
    (hP1 : P1 < 2 ^ 512) (hP2 : P2 < 2 ^ 512)
    (hex : inn * P2 ≤ P1 * ind)
    (hreg : 0 < max (bits P1) (bits P2) - 128 →
      2 ^ (max (bits P1) (bits P2) - 128) ≤ P2 ∧
      P1 / 2 ^ (max (bits P1) (bits P2) - 128) + 1 < M128) :
    inn * (round_to_rational (P1, P2) .up).d
      ≤ (round_to_rational (P1, P2) .up).n * ind := by
  have hm1 := le_max_left (bits P1) (bits P2)
  have hm2 := le_max_right (bits P1) (bits P2)
  have h600a : P1 < 2 ^ 600 := lt_trans hP1 (by norm_num)
  have h600b : P2 < 2 ^ 600 := lt_trans hP2 (by norm_num)
  by_cases hs : 0 < max (bits P1) (bits P2) - 128
  · obtain ⟨h2s, hP1s⟩ := hreg hs
    have hpow : 0 < 2 ^ (max (bits P1) (bits P2) - 128) :=
      Nat.pos_pow_of_pos _ (by omega)
    have hq2 : P2 / 2 ^ (max (bits P1) (bits P2) - 128) < M128 :=
      div_shift_lt h600b (by omega)
    have hq2pos : 1 ≤ P2 / 2 ^ (max (bits P1) (bits P2) - 128) := by
      rw [Nat.le_div_iff_mul_le hpow]
      omega
    rw [round_up_shift_eq hs hq2 hq2pos hP1s]
    exact shifted_ge hpow hind hex
  · rw [round_small_eq .up hs (bits_small_lt h600a (by omega))
      (bits_small_lt h600b (by omega))]
    exact hex


theorem ratCmp_not_lt {x y : Rat128} (hxd : 0 < x.d) (hyd : 0 < y.d)
    (h : ratCmp x y ≠ .lt) : y.n * x.d ≤ x.n * y.d := by
  unfold ratCmp at h
  by_cases hd : x.d = y.d
  · rw [if_pos hd] at h
    have h2 : y.n ≤ x.n := nat_compare_not_lt h
    rw [hd]
    exact Nat.mul_le_mul h2 (le_refl y.d)
  · rw [if_neg hd, if_neg (by omega : ¬ x.d = 0), if_neg (by omega : ¬ y.d = 0)] at h
    exact nat_compare_not_lt h

theorem ratCmp_lt {x y : Rat128} (hxd : 0 < x.d) (hyd : 0 < y.d)
    (h : ratCmp x y = .lt) : x.n * y.d < y.n * x.d := by
  unfold ratCmp at h
  by_cases hd : x.d = y.d
  · rw [if_pos hd] at h
    have h2 : x.n < y.n := nat_compare_lt h
    rw [hd]
    exact Nat.mul_lt_mul_of_lt_of_le h2 (le_refl y.d) hyd
  · rw [if_neg hd, if_neg (by omega : ¬ x.d = 0), if_neg (by omega : ¬ y.d = 0)] at h
    exact nat_compare_lt h

theorem ratCmp_self_not_lt (v : Rat128) : ratCmp v v ≠ .lt := by
  unfold ratCmp
  rw [if_pos rfl]
  intro h
  have h2 := nat_compare_lt h
  omega

theorem exact_down_one {pn pd inn ind k : Nat} (h : pn * ind + k = inn * pd) :
    (pn * (ind * pd) + k * pd) * ind ≤ inn * (pd * (ind * pd)) := by
  have h1 := exact_down (c := 1) (e := 1) h (le_refl 1)
  simpa only [mul_one] using h1

theorem exact_up_one {pn pd inn ind k : Nat} (h : inn * pd + k = pn * ind) :
    inn * (pd * (pd * ind)) ≤ (pn * (pd * ind) - k * pd) * ind := by
  have h1 := exact_up (c := 1) (e := 1) h (le_refl 1)
  simpa only [mul_one] using h1

theorem DIV_pos : 0 < DIV := by norm_num [DIV]

theorem mul_DIV_lt {a x : Nat} (h : a < 2 ^ x) : a * DIV < 2 ^ (x + 64) := by
  have h2 : a * DIV < 2 ^ x * DIV :=
    Nat.mul_lt_mul_of_lt_of_le h (le_refl DIV) DIV_pos
  have h3 : (2 : Nat) ^ x * DIV = 2 ^ (x + 64) := by
    rw [pow_add]
    rfl
  omega

theorem comb_lt_512 {a b : Nat} (ha : a < 2 ^ 448) (hb : b < 2 ^ 448) :
    a + b < 2 ^ 512 := by
  have h : (2 : Nat) ^ 448 + 2 ^ 448 ≤ 2 ^ 512 := by norm_num
  omega

theorem round_nearest_shift_eq {P1 P2 : Nat}
    (hs : 0 < max (bits P1) (bits P2) - 128)
    (hq1 : P1 / 2 ^ (max (bits P1) (bits P2) - 128) < M128)
    (hq2 : P2 / 2 ^ (max (bits P1) (bits P2) - 128) < M128) :
    round_to_rational (P1, P2) .nearest =
        ⟨max (P1 / 2 ^ (max (bits P1) (bits P2) - 128)) (if P1 = 0 then 0 else 1),
         max (P2 / 2 ^ (max (bits P1) (bits P2) - 128)) 1⟩ := by
  simp only [round_to_rational, Rounding.to_bias]
  rw [if_pos hs]
  have m1 : P1 / 2 ^ (max (bits P1) (bits P2) - 128) % M128 =
      P1 / 2 ^ (max (bits P1) (bits P2) - 128) := Nat.mod_eq_of_lt hq1
  have m2 : P2 / 2 ^ (max (bits P1) (bits P2) - 128) % M128 =
      P2 / 2 ^ (max (bits P1) (bits P2) - 128) := Nat.mod_eq_of_lt hq2
  rw [m1, m2]
  have s1 : sadd128 (P1 / 2 ^ (max (bits P1) (bits P2) - 128)) 0 =
      P1 / 2 ^ (max (bits P1) (bits P2) - 128) :=
    sadd128_exact (by omega)
  have s2 : sadd128 (P2 / 2 ^ (max (bits P1) (bits P2) - 128)) 0 =
      P2 / 2 ^ (max (bits P1) (bits P2) - 128) :=
    sadd128_exact (by omega)
  rw [s1, s2]

theorem nearest_prev_zero_le {incoming : Rat128} {w : Nat}
    (hw : w ≤ DIV)
    (hin : incoming.n < M128) (hid : incoming.d < M128) (hid0 : 0 < incoming.d) :
    ratValLe (round_to_rational (multiply w (incoming.n, incoming.d)) .nearest)
      incoming := by
  by_cases h0 : w = 0 ∨ incoming.n = 0
  · have hmul : multiply w (incoming.n, incoming.d) = (0, 1) := by
      unfold multiply
      exact if_pos h0
    rw [hmul]
    have hr : round_to_rational (0, 1) .nearest = ⟨0, 1⟩ := by decide
    rw [hr]
    unfold ratValLe
    simp
  · push_neg at h0
    obtain ⟨hw0, hn0⟩ := h0
    have hin128 : incoming.n < 2 ^ 128 := hin
    have hid128 : incoming.d < 2 ^ 128 := hid
    by_cases hwD : w = DIV
    · have hmul : multiply w (incoming.n, incoming.d) = (incoming.n, incoming.d) := by
        unfold multiply
        rw [if_neg (by push_neg; exact ⟨hw0, hn0⟩), if_pos hwD]
      rw [hmul]
      have hb1 : bits incoming.n ≤ 128 := bits_le hin128
      have hb2 : bits incoming.d ≤ 128 := bits_le hid128
      rw [round_small_eq .nearest (by omega) hin hid]
      unfold ratValLe
      exact le_refl _
    · have hmul : multiply w (incoming.n, incoming.d) =
          (incoming.n * w, incoming.d * DIV) := by
        unfold multiply
        rw [if_neg (by push_neg; exact ⟨hw0, hn0⟩), if_neg hwD]
      rw [hmul]
      have hwlt : w < 2 ^ 64 := by
        have h1 : w < DIV := by omega
        exact h1
      have hb1 : bits (incoming.n * w) ≤ 192 :=
        bits_le (lt_of_lt_of_le (lt_pow_mul hin128 hwlt)
          (Nat.pow_le_pow_right (by omega) (by omega)))
      have hb2 : bits (incoming.d * DIV) ≤ 192 :=
        bits_le (lt_of_lt_of_le (mul_DIV_lt hid128)
          (Nat.pow_le_pow_right (by omega) (by omega)))
      by_cases hs : 0 < max (bits (incoming.n * w)) (bits (incoming.d * DIV)) - 128
      · have h600a : incoming.n * w < 2 ^ 600 :=
          lt_of_lt_of_le (lt_pow_mul hin128 hwlt)
            (Nat.pow_le_pow_right (by omega) (by omega))
        have h600b : incoming.d * DIV < 2 ^ 600 :=
          lt_of_lt_of_le (mul_DIV_lt hid128)
            (Nat.pow_le_pow_right (by omega) (by omega))
        have hm1 := le_max_left (bits (incoming.n * w)) (bits (incoming.d * DIV))
        have hm2 := le_max_right (bits (incoming.n * w)) (bits (incoming.d * DIV))
        have hq1 : incoming.n * w /
            2 ^ (max (bits (incoming.n * w)) (bits (incoming.d * DIV)) - 128) < M128 :=
          div_shift_lt h600a (by omega)
        have hq2 : incoming.d * DIV /
            2 ^ (max (bits (incoming.n * w)) (bits (incoming.d * DIV)) - 128) < M128 :=
          div_shift_lt h600b (by omega)
        rw [round_nearest_shift_eq hs hq1 hq2]
        have hsle : max (bits (incoming.n * w)) (bits (incoming.d * DIV)) - 128 ≤ 64 := by
          omega
        have hdvd : 2 ^ (max (bits (incoming.n * w)) (bits (incoming.d * DIV)) - 128) ∣ DIV :=
          pow_dvd_pow 2 hsle
        have hDdiv : incoming.d * DIV /
            2 ^ (max (bits (incoming.n * w)) (bits (incoming.d * DIV)) - 128) =
            incoming.d * (DIV /
              2 ^ (max (bits (incoming.n * w)) (bits (incoming.d * DIV)) - 128)) :=
          Nat.mul_div_assoc incoming.d hdvd
        have hDpos : 0 < DIV /
            2 ^ (max (bits (incoming.n * w)) (bits (incoming.d * DIV)) - 128) :=
          Nat.div_pos (Nat.le_of_dvd DIV_pos hdvd) (Nat.pos_pow_of_pos _ (by omega))
        have hnum : max (incoming.n * w /
            2 ^ (max (bits (incoming.n * w)) (bits (incoming.d * DIV)) - 128))
            (if incoming.n * w = 0 then 0 else 1) ≤
            incoming.n * (DIV /
              2 ^ (max (bits (incoming.n * w)) (bits (incoming.d * DIV)) - 128)) := by
          apply max_le
          · calc incoming.n * w /
                2 ^ (max (bits (incoming.n * w)) (bits (incoming.d * DIV)) - 128)
                ≤ incoming.n * DIV /
                  2 ^ (max (bits (incoming.n * w)) (bits (incoming.d * DIV)) - 128) :=
                Nat.div_le_div_right (Nat.mul_le_mul (le_refl incoming.n) hw)
              _ = incoming.n * (DIV /
                  2 ^ (max (bits (incoming.n * w)) (bits (incoming.d * DIV)) - 128)) :=
                Nat.mul_div_assoc incoming.n hdvd
          · have hp : 0 < incoming.n * (DIV /
                2 ^ (max (bits (incoming.n * w)) (bits (incoming.d * DIV)) - 128)) :=
              Nat.mul_pos (by omega) hDpos
            split <;> omega
        unfold ratValLe
        rw [hDdiv]
        have hden : max (incoming.d * (DIV /
            2 ^ (max (bits (incoming.n * w)) (bits (incoming.d * DIV)) - 128))) 1 =
            incoming.d * (DIV /
              2 ^ (max (bits (incoming.n * w)) (bits (incoming.d * DIV)) - 128)) := by
          have hp : 0 < incoming.d * (DIV /
              2 ^ (max (bits (incoming.n * w)) (bits (incoming.d * DIV)) - 128)) :=
            Nat.mul_pos hid0 hDpos
          omega
        rw [hden]
        calc (max (incoming.n * w /
              2 ^ (max (bits (incoming.n * w)) (bits (incoming.d * DIV)) - 128))
              (if incoming.n * w = 0 then 0 else 1)) * incoming.d
            ≤ (incoming.n * (DIV /
              2 ^ (max (bits (incoming.n * w)) (bits (incoming.d * DIV)) - 128))) *
              incoming.d := Nat.mul_le_mul hnum (le_refl incoming.d)
          _ = incoming.n * (incoming.d * (DIV /
              2 ^ (max (bits (incoming.n * w)) (bits (incoming.d * DIV)) - 128))) := by
              ring
      · have hlt1 : incoming.n * w < M128 := bits_small_lt
          (lt_of_lt_of_le (lt_pow_mul hin128 hwlt)
            (Nat.pow_le_pow_right (by omega) (by omega))) (by omega)
        have hlt2 : incoming.d * DIV < M128 := bits_small_lt
          (lt_of_lt_of_le (mul_DIV_lt hid128)
            (Nat.pow_le_pow_right (by omega) (by omega))) (by omega)
        rw [round_small_eq .nearest hs hlt1 hlt2]
        unfold ratValLe
        calc incoming.n * w * incoming.d = incoming.n * incoming.d * w := by ring
          _ ≤ incoming.n * incoming.d * DIV := Nat.mul_le_mul (le_refl _) hw
          _ = incoming.n * (incoming.d * DIV) := by ring


theorem lt_pow_le {a x y : Nat} (h : a < 2 ^ x) (hxy : x ≤ y) : a < 2 ^ y :=
  lt_of_lt_of_le h (Nat.pow_le_pow_right (by omega) hxy)

theorem down_main {prev incoming : Rat128} {w : Nat}
    (hw : w ≤ DIV)
    (hpn : prev.n < M128) (hpd : prev.d < M128)
    (hin : incoming.n < M128) (hid : incoming.d < M128)
    (hpd0 : 0 < prev.d) (hid0 : 0 < incoming.d)
    (hvLe : prev.n * incoming.d ≤ incoming.n * prev.d)
    (hreg : downRegular prev incoming w) :
    ratValLe (rounding_add prev (multiply w (satSub incoming prev)) .down)
      incoming := by
  by_cases hpn0 : prev.n = 0
  · have hsat : satSub incoming prev = (incoming.n, incoming.d) := by
      unfold satSub
      exact if_pos (Or.inr hpn0)
    rw [hsat]
    unfold rounding_add
    rw [if_pos hpn0]
    exact nearest_prev_zero_le hw hin hid hid0
  · have hin0 : incoming.n ≠ 0 := by
      intro h
      rw [h, Nat.zero_mul] at hvLe
      have h2 : prev.n * incoming.d = 0 := by omega
      rcases Nat.mul_eq_zero.mp h2 with h3 | h3
      · exact hpn0 h3
      · omega
    have hsat : satSub incoming prev =
        (incoming.n * prev.d - prev.n * incoming.d, incoming.d * prev.d) := by
      unfold satSub
      rw [if_neg (by push_neg; exact ⟨hin0, hpn0⟩)]
    rw [hsat]
    by_cases h00 : w = 0 ∨ incoming.n * prev.d - prev.n * incoming.d = 0
    · have hmul : multiply w
          (incoming.n * prev.d - prev.n * incoming.d, incoming.d * prev.d) =
          (0, 1) := by
        unfold multiply
        exact if_pos h00
      rw [hmul]
      unfold rounding_add
      rw [if_neg hpn0, if_pos (rfl : (0, 1).1 = 0)]
      exact hvLe
    · push_neg at h00
      obtain ⟨hw0, hΔ0⟩ := h00
      have hk : prev.n * incoming.d +
          (incoming.n * prev.d - prev.n * incoming.d) = incoming.n * prev.d := by
        omega
      have hΔlt : incoming.n * prev.d - prev.n * incoming.d < 2 ^ 256 := by
        have h1 : incoming.n * prev.d < 2 ^ (128 + 128) := lt_pow_mul hin hpd
        have h2 : ((2 : Nat) ^ (128 + 128)) = 2 ^ 256 := by norm_num
        omega
      have hDlt : incoming.d * prev.d < 2 ^ 256 := by
        have h1 : incoming.d * prev.d < 2 ^ (128 + 128) := lt_pow_mul hid hpd
        have h2 : ((2 : Nat) ^ (128 + 128)) = 2 ^ 256 := by norm_num
        omega
      simp only [downRegular] at hreg
      rw [hsat] at hreg
      by_cases hwD : w = DIV
      · have hmul : multiply w
            (incoming.n * prev.d - prev.n * incoming.d, incoming.d * prev.d) =
            (incoming.n * prev.d - prev.n * incoming.d, incoming.d * prev.d) := by
          unfold multiply
          rw [if_neg (by push_neg; exact ⟨hw0, hΔ0⟩), if_pos hwD]
        rw [hmul]
        rw [hmul] at hreg
        have hcomb : combineAdd prev
            (incoming.n * prev.d - prev.n * incoming.d, incoming.d * prev.d)
            .down =
            (prev.n * (incoming.d * prev.d) +
              (incoming.n * prev.d - prev.n * incoming.d) * prev.d,
             prev.d * (incoming.d * prev.d)) := by
          rw [combineAdd_eq (lt_pow_le hΔlt (by omega)) (lt_pow_le hDlt (by omega))
            hpn hpd]
        unfold rounding_add
        rw [if_neg hpn0, if_neg hΔ0, hcomb]
        rw [hcomb] at hreg
        have hP1 : prev.n * (incoming.d * prev.d) +
            (incoming.n * prev.d - prev.n * incoming.d) * prev.d < 2 ^ 512 :=
          comb_lt_512 (lt_pow_le (lt_pow_mul hpn hDlt) (by omega))
            (lt_pow_le (lt_pow_mul hΔlt hpd) (by omega))
        have hP2 : prev.d * (incoming.d * prev.d) < 2 ^ 512 :=
          lt_pow_le (lt_pow_mul hpd hDlt) (by omega)
        exact round_down_le hid0 hP1 hP2 (exact_down_one hk) hreg
      · have hmul : multiply w
            (incoming.n * prev.d - prev.n * incoming.d, incoming.d * prev.d) =
            ((incoming.n * prev.d - prev.n * incoming.d) * w,
             incoming.d * prev.d * DIV) := by
          unfold multiply
          rw [if_neg (by push_neg; exact ⟨hw0, hΔ0⟩), if_neg hwD]
        rw [hmul]
        rw [hmul] at hreg
        have hwlt : w < 2 ^ 64 := by
          have h1 : w < DIV := by omega
          exact h1
        have hr1 : (incoming.n * prev.d - prev.n * incoming.d) * w < 2 ^ 320 :=
          lt_pow_le (lt_pow_mul hΔlt hwlt) (by omega)
        have hr2 : incoming.d * prev.d * DIV < 2 ^ 320 :=
          lt_pow_le (mul_DIV_lt hDlt) (by omega)
        have hcomb : combineAdd prev
            ((incoming.n * prev.d - prev.n * incoming.d) * w,
             incoming.d * prev.d * DIV) .down =
            (prev.n * (incoming.d * prev.d * DIV) +
              (incoming.n * prev.d - prev.n * incoming.d) * w * prev.d,
             prev.d * (incoming.d * prev.d * DIV)) := by
          rw [combineAdd_eq hr1 hr2 hpn hpd]
        unfold rounding_add
        rw [if_neg hpn0, if_neg (Nat.mul_ne_zero hΔ0 hw0), hcomb]
        rw [hcomb] at hreg
        have hP1 : prev.n * (incoming.d * prev.d * DIV) +
            (incoming.n * prev.d - prev.n * incoming.d) * w * prev.d < 2 ^ 512 :=
          comb_lt_512 (lt_pow_le (lt_pow_mul hpn hr2) (by omega))
            (lt_pow_le (lt_pow_mul hr1 hpd) (by omega))
        have hP2 : prev.d * (incoming.d * prev.d * DIV) < 2 ^ 512 :=
          lt_pow_le (lt_pow_mul hpd hr2) (by omega)
        exact round_down_le hid0 hP1 hP2 (exact_down hk hw) hreg

theorem up_main {prev incoming : Rat128} {w : Nat}
    (hw : w ≤ DIV)
    (hpn : prev.n < M128) (hpd : prev.d < M128)
    (hin : incoming.n < M128) (hid : incoming.d < M128)
    (hpd0 : 0 < prev.d) (hid0 : 0 < incoming.d)
    (hvLt : incoming.n * prev.d < prev.n * incoming.d)
    (hreg : upRegular prev incoming w) :
    ratValLe incoming
      (rounding_sub prev (multiply w (satSub prev incoming)) .up) := by
  have hpn0 : prev.n ≠ 0 := by
    intro h
    rw [h, Nat.zero_mul] at hvLt
    omega
  by_cases hin0 : incoming.n = 0
  · unfold ratValLe
    rw [hin0, Nat.zero_mul]
    exact Nat.zero_le _
  · have hsat : satSub prev incoming =
        (prev.n * incoming.d - incoming.n * prev.d, prev.d * incoming.d) := by
      unfold satSub
      rw [if_neg (by push_neg; exact ⟨hpn0, hin0⟩)]
    rw [hsat]
    have hΔ0 : prev.n * incoming.d - incoming.n * prev.d ≠ 0 := by omega
    by_cases hw0 : w = 0
    · have hmul : multiply w
          (prev.n * incoming.d - incoming.n * prev.d, prev.d * incoming.d) =
          (0, 1) := by
        unfold multiply
        exact if_pos (Or.inl hw0)
      rw [hmul]
      unfold rounding_sub
      rw [if_pos (Or.inr (rfl : (0, 1).1 = 0))]
      exact le_of_lt hvLt
    · have hk : incoming.n * prev.d +
          (prev.n * incoming.d - incoming.n * prev.d) = prev.n * incoming.d := by
        omega
      have hΔlt : prev.n * incoming.d - incoming.n * prev.d < 2 ^ 256 := by
        have h1 : prev.n * incoming.d < 2 ^ (128 + 128) := lt_pow_mul hpn hid
        have h2 : ((2 : Nat) ^ (128 + 128)) = 2 ^ 256 := by norm_num
        omega
      have hDlt : prev.d * incoming.d < 2 ^ 256 := by
        have h1 : prev.d * incoming.d < 2 ^ (128 + 128) := lt_pow_mul hpd hid
        have h2 : ((2 : Nat) ^ (128 + 128)) = 2 ^ 256 := by norm_num
        omega
      simp only [upRegular] at hreg
      rw [hsat] at hreg
      by_cases hwD : w = DIV
      · have hmul : multiply w
            (prev.n * incoming.d - incoming.n * prev.d, prev.d * incoming.d) =
            (prev.n * incoming.d - incoming.n * prev.d, prev.d * incoming.d) := by
          unfold multiply
          rw [if_neg (by push_neg; exact ⟨hw0, hΔ0⟩), if_pos hwD]
        rw [hmul]
        rw [hmul] at hreg
        have hcomb : combineSub prev
            (prev.n * incoming.d - incoming.n * prev.d, prev.d * incoming.d)
            .up =
            (prev.n * (prev.d * incoming.d) -
              (prev.n * incoming.d - incoming.n * prev.d) * prev.d,
             prev.d * (prev.d * incoming.d)) := by
          rw [combineSub_eq (lt_pow_le hΔlt (by omega)) (lt_pow_le hDlt (by omega))
            hpn hpd]
        unfold rounding_sub
        rw [if_neg (by push_neg; exact ⟨hpn0, hΔ0⟩), hcomb]
        rw [hcomb] at hreg
        have hP1 : prev.n * (prev.d * incoming.d) -
            (prev.n * incoming.d - incoming.n * prev.d) * prev.d < 2 ^ 512 := by
          have h1 : prev.n * (prev.d * incoming.d) < 2 ^ 512 :=
            lt_pow_le (lt_pow_mul hpn hDlt) (by omega)
          omega
        have hP2 : prev.d * (prev.d * incoming.d) < 2 ^ 512 :=
          lt_pow_le (lt_pow_mul hpd hDlt) (by omega)
        exact round_up_ge hid0 hP1 hP2 (exact_up_one hk) hreg
      · have hmul : multiply w
            (prev.n * incoming.d - incoming.n * prev.d, prev.d * incoming.d) =
            ((prev.n * incoming.d - incoming.n * prev.d) * w,
             prev.d * incoming.d * DIV) := by
          unfold multiply
          rw [if_neg (by push_neg; exact ⟨hw0, hΔ0⟩), if_neg hwD]
        rw [hmul]
        rw [hmul] at hreg
        have hwlt : w < 2 ^ 64 := by
          have h1 : w < DIV := by omega
          exact h1
        have hr1 : (prev.n * incoming.d - incoming.n * prev.d) * w < 2 ^ 320 :=
          lt_pow_le (lt_pow_mul hΔlt hwlt) (by omega)
        have hr2 : prev.d * incoming.d * DIV < 2 ^ 320 :=
          lt_pow_le (mul_DIV_lt hDlt) (by omega)
        have hcomb : combineSub prev
            ((prev.n * incoming.d - incoming.n * prev.d) * w,
             prev.d * incoming.d * DIV) .up =
            (prev.n * (prev.d * incoming.d * DIV) -
              (prev.n * incoming.d - incoming.n * prev.d) * w * prev.d,
             prev.d * (prev.d * incoming.d * DIV)) := by
          rw [combineSub_eq hr1 hr2 hpn hpd]
        unfold rounding_sub
        rw [if_neg (by push_neg; exact ⟨hpn0, Nat.mul_ne_zero hΔ0 hw0⟩), hcomb]
        rw [hcomb] at hreg
        have hP1 : prev.n * (prev.d * incoming.d * DIV) -
            (prev.n * incoming.d - incoming.n * prev.d) * w * prev.d < 2 ^ 512 := by
          have h1 : prev.n * (prev.d * incoming.d * DIV) < 2 ^ 512 :=
            lt_pow_le (lt_pow_mul hpn hr2) (by omega)
          omega
        have hP2 : prev.d * (prev.d * incoming.d * DIV) < 2 ^ 512 :=
          lt_pow_le (lt_pow_mul hpd hr2) (by omega)
        exact round_up_ge hid0 hP1 hP2 (exact_up hk hw) hreg

theorem balance_bracket {b0 b1 w : Nat} (hw : w ≤ DIV) :
    min b0 b1 ≤ balance_weighted_average b0 b1 w ∧
    balance_weighted_average b0 b1 w ≤ max b0 b1 := by
  unfold balance_weighted_average multiply_by_balance
  by_cases h : b0 ≤ b1
  · rw [if_pos h]
    have h1 : w * (b1 - b0) / DIV ≤ b1 - b0 := mul_div_le_right hw DIV_pos
    generalize hX : w * (b1 - b0) / DIV = X at h1 ⊢
    constructor
    · have h2 := min_le_left b0 b1
      omega
    · have h2 := le_max_right b0 b1
      omega
  · rw [if_neg h]
    have h1 : w * (b0 - b1) / DIV ≤ b0 - b1 := mul_div_le_right hw DIV_pos
    generalize hX : w * (b0 - b1) / DIV = X at h1 ⊢
    constructor
    · have h2 := min_le_right b0 b1
      omega
    · have h2 := le_max_left b0 b1
      omega


/-- C7: for a positive smoothing weight of at most one (0 < w and w ≤ DIV), the
    price weighted average of a value with itself equals that value by
    cross-multiplication value equality, and the balance weighted average of a
    balance with itself returns that balance. -/
theorem claim_C7 (v : Rat128) (b w : Nat) (h1 : 0 < w) (h2 : w ≤ DIV) :
    ratValEq (price_weighted_average v v w) v ∧
    balance_weighted_average b b w = b := by
  constructor
  · unfold price_weighted_average
    rw [if_pos (ratCmp_self_not_lt v)]
    have hsat1 : (satSub v v).1 = 0 := by
      unfold satSub
      by_cases h : v.n = 0
      · rw [if_pos (Or.inl h)]
        exact h
      · rw [if_neg (by push_neg; exact ⟨h, h⟩)]
        dsimp only
        omega
    have hmul : multiply w (satSub v v) = (0, 1) := by
      unfold multiply
      exact if_pos (Or.inr hsat1)
    rw [hmul]
    unfold rounding_add
    by_cases h : v.n = 0
    · rw [if_pos h]
      have hr : round_to_rational (0, 1) .nearest = ⟨0, 1⟩ := by decide
      rw [hr]
      unfold ratValEq
      rw [h]
      simp
    · rw [if_neg h, if_pos (rfl : (0, 1).1 = 0)]
      rfl
  · unfold balance_weighted_average multiply_by_balance
    rw [if_pos (le_refl b)]
    simp

/-- C7 witness: the stability statement applied at the price 3/5, the balance 7
    and the smoothing weight 1/2^64. -/
theorem claim_C7_witness :
    0 < 1 ∧ (1 : Nat) ≤ DIV ∧
    ratValEq (price_weighted_average ⟨3, 5⟩ ⟨3, 5⟩ 1) ⟨3, 5⟩ ∧
    balance_weighted_average 7 7 1 = 7 := by
  refine ⟨by decide, by norm_num [DIV], ?_, ?_⟩
  · exact (claim_C7 ⟨3, 5⟩ 7 1 (by decide) (by norm_num [DIV])).1
  · exact (claim_C7 ⟨3, 5⟩ 7 1 (by decide) (by norm_num [DIV])).2

set_option maxRecDepth 10000 in
/-- C8 counterexample: the claim says the price weighted average lies within
    [min(prev, incoming), max(prev, incoming)]; at prev = 2^127/(2^127 - 1),
    incoming = (2^127 + 1)/(2^127 - 1) and weight 1/2^64, prev is the minimum of
    the two prices, yet the result falls strictly below prev, because the final
    128-bit rounding shifts the 190-bit intermediate pair and adds one to the
    shifted denominator. -/
theorem claim_C8_counterexample :
    ratValLe ⟨2 ^ 127, 2 ^ 127 - 1⟩ ⟨2 ^ 127 + 1, 2 ^ 127 - 1⟩ ∧
    ¬ ratValLe ⟨2 ^ 127, 2 ^ 127 - 1⟩
      (price_weighted_average ⟨2 ^ 127, 2 ^ 127 - 1⟩
        ⟨2 ^ 127 + 1, 2 ^ 127 - 1⟩ 1) := by
  constructor
  · decide
  · decide

/-- C8 (amended): for a weight of at most one, the balance weighted average
    always lies within [min(prev, incoming), max(prev, incoming)]; the price
    weighted average is guaranteed only the bound away from the rounding bias:
    on the add path (incoming not below prev) the result stays at most incoming,
    and on the subtract path it stays at least incoming, each under the
    regularity condition of the final 128-bit rounding, which the
    counterexample violates on the opposite side. -/
theorem claim_C8_amended (prev incoming : Rat128) (b0 b1 w : Nat)
    (hw : w ≤ DIV)
    (hpn : prev.n < M128) (hpd : prev.d < M128)
    (hin : incoming.n < M128) (hid : incoming.d < M128)
    (hpd0 : 0 < prev.d) (hid0 : 0 < incoming.d) :
    (min b0 b1 ≤ balance_weighted_average b0 b1 w ∧
      balance_weighted_average b0 b1 w ≤ max b0 b1) ∧
    (ratCmp incoming prev ≠ .lt → downRegular prev incoming w →
      ratValLe (price_weighted_average prev incoming w) incoming) ∧
    (ratCmp incoming prev = .lt → upRegular prev incoming w →
      ratValLe incoming (price_weighted_average prev incoming w)) := by
  refine ⟨balance_bracket hw, ?_, ?_⟩
  · intro hbr hreg
    have hvLe : prev.n * incoming.d ≤ incoming.n * prev.d :=
      ratCmp_not_lt hid0 hpd0 hbr
    unfold price_weighted_average
    rw [if_pos hbr]
    exact down_main hw hpn hpd hin hid hpd0 hid0 hvLe hreg
  · intro hbr hreg
    have hvLt : incoming.n * prev.d < prev.n * incoming.d :=
      ratCmp_lt hid0 hpd0 hbr
    unfold price_weighted_average
    rw [if_neg (not_not_intro hbr)]
    exact up_main hw hpn hpd hin hid hpd0 hid0 hvLt hreg

set_option maxRecDepth 10000 in
/-- C8 witness: the amended bracketing applied to balances 10 and 20 and prices
    1/2 and 3/4 with weight 1/2. -/
theorem claim_C8_witness :
    (min 10 20 ≤ balance_weighted_average 10 20 (2 ^ 63) ∧
      balance_weighted_average 10 20 (2 ^ 63) ≤ max 10 20) ∧
    ratValLe (price_weighted_average ⟨1, 2⟩ ⟨3, 4⟩ (2 ^ 63)) ⟨3, 4⟩ := by
  have h := claim_C8_amended ⟨1, 2⟩ ⟨3, 4⟩ 10 20 (2 ^ 63) (by norm_num [DIV])
    (by norm_num [M128]) (by norm_num [M128]) (by norm_num [M128])
    (by norm_num [M128]) (by decide) (by decide)
  exact ⟨h.1, h.2.1 (by decide) (by decide)⟩

end Ema

end HydraDX
